import Mathlib

/-!
Verification development for the Tether Chess ("Geometric Entanglement")
rules engine (`tether_chess/models.py`, `tether_chess/board.py`,
`tether_chess/engine.py`).  Python classes are embedded shallowly:
pieces and moves are records, the mutable 8x8 grid is a function from
positions to optional pieces, loops become folds or structural recursion
over explicit index lists, and every definition is executable.
-/

set_option maxRecDepth 4000

/-- `Position` of models.py: 0-indexed file `x` and rank `y`, stored as
unbounded integers exactly like Python ints. -/
structure Pos where
  x : Int
  y : Int
deriving DecidableEq

/-- `Position.is_valid`. -/
def Pos.isValid (p : Pos) : Bool :=
  decide (0 ≤ p.x ∧ p.x < 8 ∧ 0 ≤ p.y ∧ p.y < 8)

/-- `Position.offset`. -/
def Pos.offset (p : Pos) (dx dy : Int) : Pos :=
  ⟨p.x + dx, p.y + dy⟩

/-- `Position.is_promotion_rank`. -/
def Pos.isPromotionRank (p : Pos) (isWhite : Bool) : Bool :=
  if isWhite then decide (p.y = 7) else decide (p.y = 0)

/-- `PieceType` of models.py (the symbol/unicode payload is kept only as
far as claims need it: the algebraic symbol letter). -/
inductive PieceType where
  | king
  | queen
  | rook
  | bishop
  | knight
  | pawn
deriving DecidableEq

/-- `PieceType.symbol`. -/
def PieceType.symbol : PieceType → String
  | .king => "K"
  | .queen => "Q"
  | .rook => "R"
  | .bishop => "B"
  | .knight => "N"
  | .pawn => "P"

/-- `PieceType.is_sliding` (the enum payload's second component). -/
def PieceType.isSliding : PieceType → Bool
  | .queen => true
  | .rook => true
  | .bishop => true
  | _ => false

/-- `GameMode` of models.py: exactly the four members the enum defines.
board.py's references to `GameMode.LINEAR` and `GameMode.QUANTUM` name no
member of this enum (claim C1). -/
inductive GameMode where
  | LINEAR_RANK
  | QUANTUM_RANK
  | LINEAR_FILE
  | QUANTUM_FILE
deriving DecidableEq

/-- Python attribute access `GameMode.<name>` on the enum class: `some`
for a defined member, `none` for the `AttributeError` raised on any other
name (in particular "LINEAR" and "QUANTUM", used by board.py). -/
def GameMode.member : String → Option GameMode
  | "LINEAR_RANK" => some .LINEAR_RANK
  | "QUANTUM_RANK" => some .QUANTUM_RANK
  | "LINEAR_FILE" => some .LINEAR_FILE
  | "QUANTUM_FILE" => some .QUANTUM_FILE
  | _ => none

/-- `GameMode.is_quantum` (models.py property). -/
def GameMode.isQuantum (m : GameMode) : Bool :=
  decide (m = .QUANTUM_RANK ∨ m = .QUANTUM_FILE)

/-- `Piece` of models.py: a piece with its cached `position` field and
`has_moved` flag.  Python pieces are mutable objects; here every mutation
produces the updated record, and the board's grid is the source of truth
exactly as in the source. -/
structure Piece where
  pieceType : PieceType
  isWhite : Bool
  position : Pos
  hasMoved : Bool
deriving DecidableEq

/-- A movement vector `(dx, dy, is_sliding)`. -/
abbrev Vec := Int × Int × Bool

/-- `Piece.get_native_movement_vectors`, in the source's construction
order (the king/queen double loop runs dx, then dy, over [-1, 0, 1]). -/
def Piece.getNativeMovementVectors (p : Piece) : List Vec :=
  match p.pieceType with
  | .king =>
      [(-1, -1, false), (-1, 0, false), (-1, 1, false), (0, -1, false),
       (0, 1, false), (1, -1, false), (1, 0, false), (1, 1, false)]
  | .queen =>
      [(-1, -1, true), (-1, 0, true), (-1, 1, true), (0, -1, true),
       (0, 1, true), (1, -1, true), (1, 0, true), (1, 1, true)]
  | .rook => [(1, 0, true), (-1, 0, true), (0, 1, true), (0, -1, true)]
  | .bishop => [(1, 1, true), (1, -1, true), (-1, 1, true), (-1, -1, true)]
  | .knight =>
      [(2, 1, false), (2, -1, false), (-2, 1, false), (-2, -1, false),
       (1, 2, false), (1, -2, false), (-1, 2, false), (-1, -2, false)]
  | .pawn => [(0, if p.isWhite then 1 else -1, false)]

/-- `Piece._is_along_ray`. -/
def Piece.isAlongRay (dx dy vx vy : Int) : Bool :=
  if dx = 0 ∧ dy = 0 then false
  else if vx = 0 ∧ dx ≠ 0 then false
  else if vy = 0 ∧ dy ≠ 0 then false
  else if (vx ≠ 0 ∧ vy ≠ 0) ∧ dx.natAbs ≠ dy.natAbs then false
  else if vx ≠ 0 ∧ (decide (dx > 0) ≠ decide (vx > 0)) then false
  else if vy ≠ 0 ∧ (decide (dy > 0) ≠ decide (vy > 0)) then false
  else true

/-- `Piece.can_natively_attack`. -/
def Piece.canNativelyAttack (p : Piece) (origin target : Pos) : Bool :=
  if p.pieceType = .pawn then
    let direction : Int := if p.isWhite then 1 else -1
    decide ((target.x - origin.x).natAbs = 1 ∧ target.y - origin.y = direction)
  else
    p.getNativeMovementVectors.any fun v =>
      let dx := target.x - origin.x
      let dy := target.y - origin.y
      if v.2.2 then Piece.isAlongRay dx dy v.1 v.2.1
      else decide (dx = v.1 ∧ dy = v.2.1)

/-- `Move` of models.py: an immutable description of one ply. -/
structure Move where
  fromPos : Pos
  toPos : Pos
  piece : Piece
  capturedPiece : Option Piece
  isTransporter : Bool
  borrowedFrom : Option Piece
  promotionType : Option PieceType
  isCastling : Bool
  isEnPassant : Bool
deriving DecidableEq

/-- `Move(from, to, piece, captured)` with the dataclass defaults for the
remaining fields. -/
def Move.basic (fromPos toPos : Pos) (piece : Piece) (captured : Option Piece) : Move :=
  ⟨fromPos, toPos, piece, captured, false, none, none, false, false⟩

/-- `Move.is_capture`. -/
def Move.isCapture (m : Move) : Bool := m.capturedPiece.isSome

/-- `Move.is_promotion`. -/
def Move.isPromo (m : Move) : Bool := m.promotionType.isSome

/-- `Move.is_pawn_knight_apex`. -/
def Move.isPawnKnightApex (m : Move) : Bool :=
  decide (m.piece.pieceType = .pawn) && m.isTransporter &&
    (match m.borrowedFrom with
     | some bp => decide (bp.pieceType = .knight)
     | none => false) &&
    m.isPromo

/-- The board's `squares` grid: Python's `List[List[Optional[Piece]]]`
indexed `squares[x][y]`, embedded as a total function on positions (all
reads and writes in board.py happen at valid coordinates). -/
abbrev Grid := Pos → Option Piece

/-- Assignment `squares[p.x][p.y] = v`. -/
def setCell (g : Grid) (p : Pos) (v : Option Piece) : Grid :=
  fun q => if q = p then v else g q

/-- The empty grid. -/
def emptyGrid : Grid := fun _ => none

/-- `Board` of board.py: grid, side to move, en-passant target, the four
castling-rights booleans, move history and the game-mode selector. -/
structure Board where
  squares : Grid
  whiteToMove : Bool
  enPassantTarget : Option Pos
  whiteCanCastleKingside : Bool
  whiteCanCastleQueenside : Bool
  blackCanCastleKingside : Bool
  blackCanCastleQueenside : Bool
  moveHistory : List Move
  gameMode : GameMode

/-- `Board.__init__(game_mode)` with an explicit mode argument. -/
def Board.init (m : GameMode) : Board :=
  ⟨emptyGrid, true, none, true, true, true, true, [], m⟩

/-- `Board.__init__`'s default-argument path: the default is the
attribute access `GameMode.LINEAR`, evaluated when board.py is imported;
it names no member of the enum, so the import raises `AttributeError`
and no board is ever constructed this way (claim C1). -/
def Board.initDefault : Option Board :=
  (GameMode.member "LINEAR").map Board.init

/-- `Board.get_piece_at`. -/
def Board.getPieceAt (b : Board) (p : Pos) : Option Piece :=
  if p.isValid then b.squares p else none

/-- The scan order of every `for x in range(8): for y in range(8)` loop
over the grid: x-major, exactly as in board.py. -/
def scanPositions : List Pos :=
  (List.range 8).flatMap fun x => (List.range 8).map fun y => ⟨Int.ofNat x, Int.ofNat y⟩

/-- `Board._find_piece_on_board`: first grid cell holding the piece, in
scan order.  Python compares by object identity (`is`); the embedding
compares by value, which agrees whenever distinct pieces differ in some
field (distinct live pieces always differ in their cached position). -/
def Board.findPieceOnBoard (b : Board) (piece : Piece) : Option Pos :=
  scanPositions.find? fun p => decide (b.squares p = some piece)

/-- The `if piece_board_pos is None: piece_board_pos = self._find_piece_on_board(piece)`
prologue shared by the board's generation methods. -/
def Board.resolvePos (b : Board) (piece : Piece) (pbpO : Option Pos) : Option Pos :=
  match pbpO with
  | some p => some p
  | none => b.findPieceOnBoard piece

/-- `Board.identify_rank_mates`: every other friendly piece on the same
rank, with its actual board position, in file order. -/
def Board.identifyRankMates (b : Board) (piece : Piece) (pbpO : Option Pos) :
    List (Piece × Pos) :=
  match b.resolvePos piece pbpO with
  | none => []
  | some pbp =>
      (List.range 8).foldl
        (fun acc x =>
          match b.squares ⟨(x : Int), pbp.y⟩ with
          | some other =>
              if other ≠ piece ∧ other.isWhite = piece.isWhite then
                acc ++ [(other, (⟨(x : Int), pbp.y⟩ : Pos))]
              else acc
          | none => acc)
        []

/-- `Board._create_transporter_move` (a method that reads no board
state): transporter `Move` with automatic Queen promotion for a pawn
arriving on its promotion rank.  The Python function's `Optional` result
is always a move, and every caller appends it. -/
def createTransporterMove (piece : Piece) (fromPos target : Pos) (mate : Piece)
    (captured : Option Piece) : Move :=
  let promo : Option PieceType :=
    if piece.pieceType = .pawn ∧ target.isPromotionRank piece.isWhite = true then
      some .queen
    else none
  ⟨fromPos, target, piece, captured, true, some mate, promo, false, false⟩

/-- The `(transporter_moves, seen_targets)` pair threaded through the two
transporter algorithms. -/
abbrev MS := List Move × List Pos

/-- The shared `if target not in seen_targets: append move; add target`
step of both transporter algorithms. -/
def addIfNew (st : MS) (target : Pos) (mv : Move) : MS :=
  if target ∈ st.2 then st else (st.1 ++ [mv], target :: st.2)

/-- The distances `range(1, 8)` of every sliding-ray loop. -/
def rayDistances : List Int := [1, 2, 3, 4, 5, 6, 7]

/-- One sliding-vector ray of the transporter algorithms, launched from
`mo`.  `transparent = false` is `_calculate_linear_transporter`'s loop
(at the mover's own square: break when occupied, skip when empty);
`transparent = true` is `_calculate_quantum_transporter`'s (the mover's
square is always skipped, the ray continues past it).  All other branch
logic is identical in the two sources. -/
def transRay (b : Board) (piece : Piece) (pbp : Pos) (transparent : Bool)
    (mate : Piece) (mo : Pos) (dx dy : Int) : List Int → MS → MS
  | [], st => st
  | d :: rest, st =>
      if (mo.offset (dx * d) (dy * d)).isValid = false then st
      else if mo.offset (dx * d) (dy * d) = pbp then
        (if transparent then transRay b piece pbp transparent mate mo dx dy rest st
         else if (b.getPieceAt (mo.offset (dx * d) (dy * d))).isSome then st
         else transRay b piece pbp transparent mate mo dx dy rest st)
      else
        match b.getPieceAt (mo.offset (dx * d) (dy * d)) with
        | some q =>
            if q.isWhite = piece.isWhite then st
            else addIfNew st (mo.offset (dx * d) (dy * d))
              (createTransporterMove piece pbp (mo.offset (dx * d) (dy * d)) mate (some q))
        | none =>
            transRay b piece pbp transparent mate mo dx dy rest
              (addIfNew st (mo.offset (dx * d) (dy * d))
                (createTransporterMove piece pbp (mo.offset (dx * d) (dy * d)) mate none))

/-- One non-sliding vector of the transporter algorithms (identical
branch logic in the linear and quantum sources). -/
def transStep (b : Board) (piece : Piece) (pbp : Pos)
    (mate : Piece) (mo : Pos) (dx dy : Int) (st : MS) : MS :=
  if (mo.offset dx dy).isValid = false then st
  else if mo.offset dx dy = pbp then st
  else
    match b.getPieceAt (mo.offset dx dy) with
    | some q =>
        if q.isWhite = piece.isWhite then st
        else addIfNew st (mo.offset dx dy)
          (createTransporterMove piece pbp (mo.offset dx dy) mate (some q))
    | none =>
        addIfNew st (mo.offset dx dy)
          (createTransporterMove piece pbp (mo.offset dx dy) mate none)

/-- Dispatch of one vector inside the transporter loops. -/
def transVec (b : Board) (piece : Piece) (pbp : Pos) (transparent : Bool)
    (mate : Piece) (mo : Pos) (v : Vec) (st : MS) : MS :=
  if v.2.2 then transRay b piece pbp transparent mate mo v.1 v.2.1 rayDistances st
  else transStep b piece pbp mate mo v.1 v.2.1 st

/-- The inner `for dx, dy, is_sliding in vectors` loop. -/
def transVecs (b : Board) (piece : Piece) (pbp : Pos) (transparent : Bool)
    (mate : Piece) (mo : Pos) (vs : List Vec) (st : MS) : MS :=
  vs.foldl (fun s v => transVec b piece pbp transparent mate mo v s) st

/-- The outer loop over launch pieces: each pair `(mate, mate_origin)`
contributes the vectors `vecsFor` assigns to it. -/
def transLaunches (b : Board) (piece : Piece) (pbp : Pos) (transparent : Bool)
    (vecsFor : Piece × Pos → List Vec) (prs : List (Piece × Pos)) (st : MS) : MS :=
  prs.foldl (fun s pr => transVecs b piece pbp transparent pr.1 pr.2 (vecsFor pr) s) st

/-- `Board._calculate_linear_transporter`: each rank-mate's own vectors,
launched from that mate's own square; the mover's square blocks rays
when occupied. -/
def Board.calcLinearTransporter (b : Board) (piece : Piece)
    (mates : List (Piece × Pos)) (pbpO : Option Pos) : List Move :=
  match b.resolvePos piece pbpO with
  | none => []
  | some pbp =>
      (transLaunches b piece pbp false (fun pr => pr.1.getNativeMovementVectors)
        mates (([], []) : MS)).1

/-- One insertion into the `all_vectors` set, keeping first-insertion
order. -/
def insertVec (acc : List Vec) (v : Vec) : List Vec :=
  if v ∈ acc then acc else acc ++ [v]

/-- The `all_vectors` set of `_calculate_quantum_transporter`: the union
of the mover's and every rank-mate's vectors.  Python collects them in a
`set`; the embedding keeps first-insertion order, which fixes one of the
orders the set may iterate in (the destination set is order-independent). -/
def allVectorsOf (piece : Piece) (mates : List (Piece × Pos)) : List Vec :=
  mates.foldl (fun acc pr => pr.1.getNativeMovementVectors.foldl insertVec acc)
    (piece.getNativeMovementVectors.foldl insertVec [])

/-- `Board._calculate_quantum_transporter`: every vector of the unified
set, launched from the mover's square and from every rank-mate's square;
the mover's square is transparent to rays. -/
def Board.calcQuantumTransporter (b : Board) (piece : Piece)
    (mates : List (Piece × Pos)) (pbpO : Option Pos) : List Move :=
  match b.resolvePos piece pbpO with
  | none => []
  | some pbp =>
      (transLaunches b piece pbp true (fun _ => allVectorsOf piece mates)
        ((piece, pbp) :: mates) (([], []) : MS)).1

/-- `Board.calculate_transporter_vector` exactly as written: the dispatch
condition is `self.game_mode == GameMode.QUANTUM`, and evaluating the
attribute `GameMode.QUANTUM` raises `AttributeError` (`none`) before any
comparison happens, whatever the board's mode (claim C1). -/
def Board.calculateTransporterVectorAsWritten (b : Board) (piece : Piece)
    (mates : List (Piece × Pos)) (pbpO : Option Pos) : Option (List Move) :=
  (GameMode.member "QUANTUM").map fun q =>
    if b.gameMode = q then b.calcQuantumTransporter piece mates pbpO
    else b.calcLinearTransporter piece mates pbpO

/-- `Board.calculate_transporter_vector` as evidently intended (board.py's
docstrings say "LINEAR or QUANTUM"): dispatch on whether the board's mode
is a quantum one, per models.py's `GameMode.is_quantum`.  The rest of the
development uses this repaired dispatch, since the literal code fails on
every call (claim C1). -/
def Board.calculateTransporterVector (b : Board) (piece : Piece)
    (mates : List (Piece × Pos)) (pbpO : Option Pos) : List Move :=
  if b.gameMode.isQuantum then b.calcQuantumTransporter piece mates pbpO
  else b.calcLinearTransporter piece mates pbpO

/-- `Board._can_natively_reach_from`: native reachability with path
blocking for sliding vectors. -/
def Board.canNativelyReachFrom (b : Board) (piece : Piece) (origin target : Pos) : Bool :=
  if piece.pieceType = .pawn then
    let direction : Int := if piece.isWhite then 1 else -1
    decide ((target.x - origin.x).natAbs = 1 ∧ target.y - origin.y = direction)
  else
    piece.getNativeMovementVectors.any fun v =>
      if v.2.2 then
        let dx := target.x - origin.x
        let dy := target.y - origin.y
        if Piece.isAlongRay dx dy v.1 v.2.1 then
          let steps := max dx.natAbs dy.natAbs
          (List.range (steps - 1)).all fun j =>
            (b.getPieceAt (origin.offset (v.1 * ((j : Int) + 1)) (v.2.1 * ((j : Int) + 1)))).isNone
        else false
      else decide (origin.offset v.1 v.2.1 = target)

/-- `Board.is_under_native_attack`: some piece of `byWhite` natively
reaches `target` from its grid cell.  This is the one predicate defining
check. -/
def Board.isUnderNativeAttack (b : Board) (target : Pos) (byWhite : Bool) : Bool :=
  scanPositions.any fun p =>
    match b.squares p with
    | some attacker =>
        decide (attacker.isWhite = byWhite) && b.canNativelyReachFrom attacker p target
    | none => false

/-- One sliding ray of `Board._can_transporter_reach`: the target square
is hit even when occupied; the hypothetical mover's own square is
transparent; any other occupied square blocks the ray. -/
def transReachRay (b : Board) (mo : Pos) (dx dy : Int) (target movingPos : Pos) :
    List Int → Bool
  | [] => false
  | d :: rest =>
      let checkPos := mo.offset (dx * d) (dy * d)
      if checkPos.isValid = false then false
      else if checkPos = target then true
      else if checkPos = movingPos then transReachRay b mo dx dy target movingPos rest
      else if (b.getPieceAt checkPos).isSome then false
      else transReachRay b mo dx dy target movingPos rest

/-- `Board._can_transporter_reach`. -/
def Board.canTransporterReach (b : Board) (mate : Piece) (mateOrigin target movingPos : Pos) :
    Bool :=
  mate.getNativeMovementVectors.any fun v =>
    if v.2.2 then transReachRay b mateOrigin v.1 v.2.1 target movingPos rayDistances
    else (mateOrigin.offset v.1 v.2.1).isValid && decide (mateOrigin.offset v.1 v.2.1 = target)

/-- `Board.is_under_any_attack`: native attack, or some piece of
`byWhite` could teleport to `target` on a rank-mate's vector launched
from the rank-mate's square.  Used only for king safety. -/
def Board.isUnderAnyAttack (b : Board) (target : Pos) (byWhite : Bool) : Bool :=
  b.isUnderNativeAttack target byWhite ||
    scanPositions.any fun p =>
      match b.squares p with
      | some piece =>
          decide (piece.isWhite = byWhite) &&
            ((List.range 8).any fun mateX =>
              if (mateX : Int) = p.x then false
              else
                match b.squares ⟨(mateX : Int), p.y⟩ with
                | some mate =>
                    decide (mate.isWhite = byWhite) &&
                      b.canTransporterReach mate ⟨(mateX : Int), p.y⟩ target p
                | none => false)
      | none => false

/-- `Board.find_king`: the first cell in scan order holding the king of
the given color (the actual board position, not the cached one). -/
def Board.findKing (b : Board) (isWhite : Bool) : Option Pos :=
  scanPositions.find? fun p =>
    match b.squares p with
    | some pc => decide (pc.pieceType = .king ∧ pc.isWhite = isWhite)
    | none => false

/-- One sliding ray of the generic native-move loop of
`Board._generate_legal_moves_for_piece`'s helper `_generate_native_moves`. -/
def slideNative (b : Board) (piece : Piece) (origin : Pos) (dx dy : Int) :
    List Int → List Move
  | [] => []
  | d :: rest =>
      let target := origin.offset (dx * d) (dy * d)
      if target.isValid = false then []
      else
        match b.getPieceAt target with
        | some q =>
            if q.isWhite = piece.isWhite then []
            else [Move.basic origin target piece (some q)]
        | none => Move.basic origin target piece none :: slideNative b piece origin dx dy rest

/-- One non-sliding vector of the generic native-move loop. -/
def stepNative (b : Board) (piece : Piece) (origin : Pos) (dx dy : Int) : List Move :=
  let target := origin.offset dx dy
  if target.isValid = false then []
  else
    match b.getPieceAt target with
    | some q =>
        if q.isWhite = piece.isWhite then []
        else [Move.basic origin target piece (some q)]
    | none => [Move.basic origin target piece none]

/-- The generic (non-pawn, non-king) part of `Board._generate_native_moves`. -/
def genericNativeMoves (b : Board) (piece : Piece) (origin : Pos) : List Move :=
  piece.getNativeMovementVectors.foldl
    (fun acc v =>
      acc ++ (if v.2.2 then slideNative b piece origin v.1 v.2.1 rayDistances
              else stepNative b piece origin v.1 v.2.1))
    []

/-- The four-kind promotion list of `Board._generate_pawn_moves`, in
source order. -/
def promoMoves (origin target : Pos) (pawn : Piece) (captured : Option Piece) : List Move :=
  [PieceType.queen, PieceType.rook, PieceType.bishop, PieceType.knight].map fun pt =>
    ⟨origin, target, pawn, captured, false, none, some pt, false, false⟩

/-- The forward-push (and double-step, and promotion fan-out) part of
`Board._generate_pawn_moves`. -/
def pawnFwdMoves (b : Board) (pawn : Piece) (origin : Pos) : List Move :=
  if (origin.offset 0 (if pawn.isWhite then 1 else -1)).isValid &&
      (b.getPieceAt (origin.offset 0 (if pawn.isWhite then 1 else -1))).isNone then
    if (origin.offset 0 (if pawn.isWhite then 1 else -1)).isPromotionRank pawn.isWhite then
      promoMoves origin (origin.offset 0 (if pawn.isWhite then 1 else -1)) pawn none
    else
      Move.basic origin (origin.offset 0 (if pawn.isWhite then 1 else -1)) pawn none ::
        (if origin.y = (if pawn.isWhite then (1 : Int) else 6) then
           (if (b.getPieceAt
                 (origin.offset 0 ((if pawn.isWhite then (1 : Int) else -1) * 2))).isNone then
              [Move.basic origin
                (origin.offset 0 ((if pawn.isWhite then (1 : Int) else -1) * 2)) pawn none]
            else [])
         else [])
  else []

/-- The capture part of the `for dx in [-1, 1]` body of
`Board._generate_pawn_moves`: diagonal capture (with promotion fan-out)
when an enemy stands on the capture square. -/
def pawnCapList (b : Board) (pawn : Piece) (origin : Pos) (acc : List Move) (dx : Int) :
    List Move :=
  match b.getPieceAt (origin.offset dx (if pawn.isWhite then 1 else -1)) with
  | some t =>
      if t.isWhite ≠ pawn.isWhite then
        if (origin.offset dx (if pawn.isWhite then 1 else -1)).isPromotionRank pawn.isWhite then
          acc ++ promoMoves origin (origin.offset dx (if pawn.isWhite then 1 else -1)) pawn
            (some t)
        else acc ++ [Move.basic origin (origin.offset dx (if pawn.isWhite then 1 else -1)) pawn
          (some t)]
      else acc
  | none => acc

/-- One `dx` iteration of the capture loop of
`Board._generate_pawn_moves`: the diagonal capture followed by the
en-passant capture. -/
def pawnCapStep (b : Board) (pawn : Piece) (origin : Pos) (acc : List Move) (dx : Int) :
    List Move :=
  if (origin.offset dx (if pawn.isWhite then 1 else -1)).isValid = false then acc
  else
    match b.enPassantTarget with
    | some ept =>
        if origin.offset dx (if pawn.isWhite then 1 else -1) = ept then
          match b.getPieceAt (origin.offset dx 0) with
          | some epPawn =>
              if epPawn.pieceType = .pawn then
                pawnCapList b pawn origin acc dx ++
                  [⟨origin, origin.offset dx (if pawn.isWhite then 1 else -1), pawn,
                    some epPawn, false, none, none, false, true⟩]
              else pawnCapList b pawn origin acc dx
          | none => pawnCapList b pawn origin acc dx
        else pawnCapList b pawn origin acc dx
    | none => pawnCapList b pawn origin acc dx

/-- `Board._generate_pawn_moves`: forward pushes (with the four-way
promotion fan-out), the double step from the start rank, diagonal
captures, and en passant. -/
def Board.generatePawnMoves (b : Board) (pawn : Piece) (originO : Option Pos) : List Move :=
  match b.resolvePos pawn originO with
  | none => []
  | some origin =>
      pawnFwdMoves b pawn origin ++ [(-1 : Int), 1].foldl (pawnCapStep b pawn origin) []

/-- A castling `Move(origin, to, king, is_castling=True)`. -/
def castleMoveOf (origin toPos : Pos) (king : Piece) : Move :=
  ⟨origin, toPos, king, none, false, none, none, true, false⟩

/-- `Board._generate_king_moves`: single steps plus castling; the
castling guards require the transit squares empty and the start, transit
and landing squares free of `is_under_any_attack` (stealth-capture
prevention). -/
def Board.generateKingMoves (b : Board) (king : Piece) (originO : Option Pos) : List Move :=
  match b.resolvePos king originO with
  | none => []
  | some origin =>
      let normal :=
        king.getNativeMovementVectors.foldl
          (fun acc v =>
            let target := origin.offset v.1 v.2.1
            if target.isValid = false then acc
            else
              match b.getPieceAt target with
              | some q =>
                  if q.isWhite = king.isWhite then acc
                  else acc ++ [Move.basic origin target king (some q)]
              | none => acc ++ [Move.basic origin target king none])
          []
      let enemy := !king.isWhite
      let ks : List Move :=
        if king.hasMoved = false ∧
            (if king.isWhite then b.whiteCanCastleKingside else b.blackCanCastleKingside) = true then
          match b.getPieceAt ⟨7, origin.y⟩ with
          | some rk =>
              if rk.pieceType = .rook ∧ rk.hasMoved = false ∧
                  (b.getPieceAt (origin.offset 1 0)).isNone = true ∧
                  (b.getPieceAt (origin.offset 2 0)).isNone = true ∧
                  b.isUnderAnyAttack origin enemy = false ∧
                  b.isUnderAnyAttack (origin.offset 1 0) enemy = false ∧
                  b.isUnderAnyAttack (origin.offset 2 0) enemy = false then
                [castleMoveOf origin (origin.offset 2 0) king]
              else []
          | none => []
        else []
      let qs : List Move :=
        if king.hasMoved = false ∧
            (if king.isWhite then b.whiteCanCastleQueenside else b.blackCanCastleQueenside) = true then
          match b.getPieceAt ⟨0, origin.y⟩ with
          | some rk =>
              if rk.pieceType = .rook ∧ rk.hasMoved = false ∧
                  (b.getPieceAt (origin.offset (-1) 0)).isNone = true ∧
                  (b.getPieceAt (origin.offset (-2) 0)).isNone = true ∧
                  (b.getPieceAt (origin.offset (-3) 0)).isNone = true ∧
                  b.isUnderAnyAttack origin enemy = false ∧
                  b.isUnderAnyAttack (origin.offset (-1) 0) enemy = false ∧
                  b.isUnderAnyAttack (origin.offset (-2) 0) enemy = false then
                [castleMoveOf origin (origin.offset (-2) 0) king]
              else []
          | none => []
        else []
      normal ++ ks ++ qs

/-- `Board._generate_native_moves`. -/
def Board.generateNativeMoves (b : Board) (piece : Piece) (originO : Option Pos) : List Move :=
  match b.resolvePos piece originO with
  | none => []
  | some origin =>
      if piece.pieceType = .pawn then b.generatePawnMoves piece (some origin)
      else if piece.pieceType = .king then b.generateKingMoves piece (some origin)
      else genericNativeMoves b piece origin

/-- The en-passant victim square `Position(to_pos.x, from_pos.y)` used by
`_leaves_king_in_check` and `make_move`. -/
def epPosOf (m : Move) : Pos := ⟨m.toPos.x, m.fromPos.y⟩

/-- The grid after `_leaves_king_in_check`'s first two writes: origin
cleared, moved piece (with its cached position updated, as the aliased
object mutation does) placed on the destination. -/
def simStage1 (b : Board) (m : Move) : Grid :=
  setCell (setCell b.squares m.fromPos none) m.toPos (some { m.piece with position := m.toPos })

/-- `ep_captured` as `_leaves_king_in_check` reads it: the occupant of the
en-passant victim square after the first two writes (via the validity-
guarded `get_piece_at`), only for en-passant moves. -/
def epCapturedOf (b : Board) (m : Move) : Option Piece :=
  if m.isEnPassant then
    (if (epPosOf m).isValid then simStage1 b m (epPosOf m) else none)
  else none

/-- The fully applied temporary position of `_leaves_king_in_check`:
origin cleared, piece on destination, en-passant victim removed. -/
def Board.simulateMove (b : Board) (m : Move) : Board :=
  { b with
    squares := if m.isEnPassant then setCell (simStage1 b m) (epPosOf m) none
               else simStage1 b m }

/-- The danger query `_leaves_king_in_check` performs on the simulated
position: `is_under_any_attack` on the king square when the moved piece
is the king, `is_under_native_attack` otherwise, `False` when the side
has no king. -/
def Board.legalitySimDanger (b : Board) (m : Move) : Bool :=
  match (b.simulateMove m).findKing m.piece.isWhite with
  | some kp =>
      if m.piece.pieceType = .king then
        (b.simulateMove m).isUnderAnyAttack kp (!m.piece.isWhite)
      else (b.simulateMove m).isUnderNativeAttack kp (!m.piece.isWhite)
  | none => false

/-- The board `_leaves_king_in_check` leaves behind after its unmake
section: origin cell restored to the moved piece (cached position
restored to `original_pos`), destination restored to the saved
`captured`, and the en-passant victim put back when one was removed. -/
def Board.legalityRevert (b : Board) (m : Move) : Board :=
  let captured := b.getPieceAt m.toPos
  let sb := b.simulateMove m
  let g1 := setCell sb.squares m.fromPos (some m.piece)
  let g2 := setCell g1 m.toPos captured
  let g3 :=
    match m.isEnPassant, epCapturedOf b m with
    | true, some ep => setCell g2 (epPosOf m) (some ep)
    | _, _ => g2
  { sb with squares := g3 }

/-- `Board._leaves_king_in_check`'s return value (the danger query result
computed between the apply and the revert). -/
def Board.leavesKingInCheck (b : Board) (m : Move) : Bool :=
  b.legalitySimDanger m

/-- `Board.generate_legal_moves_for_piece`: native moves plus transporter
moves, filtered by the king-safety simulation unless skipped. -/
def Board.generateLegalMovesForPiece (b : Board) (piece : Piece)
    (skipCheckFilter : Bool) (pbpO : Option Pos) : List Move :=
  match b.resolvePos piece pbpO with
  | none => []
  | some pbp =>
      let moves :=
        b.generateNativeMoves piece (some pbp) ++
          b.calculateTransporterVector piece (b.identifyRankMates piece (some pbp)) (some pbp)
      if skipCheckFilter then moves else moves.filter fun m => !(b.leavesKingInCheck m)

/-- `Board.generate_all_legal_moves`. -/
def Board.generateAllLegalMoves (b : Board) : List Move :=
  scanPositions.foldl
    (fun acc p =>
      match b.squares p with
      | some piece =>
          if piece.isWhite = b.whiteToMove then
            acc ++ b.generateLegalMovesForPiece piece false (some p)
          else acc
      | none => acc)
    []

/-- `Board.make_move`: committed move execution — en-passant bookkeeping,
castling rook relocation, promotion replacement, castling-rights decay,
history append and turn flip.  (When a castling move finds no rook on the
corner cell Python would raise `AttributeError`; the grid is left
unchanged here, and no generated castling move reaches that state.) -/
def Board.makeMove (b : Board) (m : Move) : Board :=
  let piece := m.piece
  let ept : Option Pos :=
    if piece.pieceType = .pawn ∧ (m.toPos.y - m.fromPos.y).natAbs = 2 then
      some ⟨m.fromPos.x, Int.fdiv (m.fromPos.y + m.toPos.y) 2⟩
    else none
  let g0 := if m.isEnPassant then setCell b.squares (epPosOf m) none else b.squares
  let g1 :=
    if m.isCastling then
      if m.fromPos.x < m.toPos.x then
        match g0 ⟨7, m.fromPos.y⟩ with
        | some rk =>
            setCell (setCell g0 ⟨7, m.fromPos.y⟩ none) ⟨5, m.fromPos.y⟩
              (some { rk with position := ⟨5, m.fromPos.y⟩, hasMoved := true })
        | none => g0
      else
        match g0 ⟨0, m.fromPos.y⟩ with
        | some rk =>
            setCell (setCell g0 ⟨0, m.fromPos.y⟩ none) ⟨3, m.fromPos.y⟩
              (some { rk with position := ⟨3, m.fromPos.y⟩, hasMoved := true })
        | none => g0
    else g0
  let g2 := setCell g1 m.fromPos none
  let g3 :=
    match m.promotionType with
    | some pt => setCell g2 m.toPos (some ⟨pt, piece.isWhite, m.toPos, true⟩)
    | none => setCell g2 m.toPos (some { piece with position := m.toPos, hasMoved := true })
  let isK := piece.pieceType = .king
  let isR := piece.pieceType = .rook
  let wks := if (isK ∧ piece.isWhite = true) ∨ (isR ∧ m.fromPos = ⟨7, 0⟩) then false
             else b.whiteCanCastleKingside
  let wqs := if (isK ∧ piece.isWhite = true) ∨ (isR ∧ m.fromPos = ⟨0, 0⟩) then false
             else b.whiteCanCastleQueenside
  let bks := if (isK ∧ piece.isWhite = false) ∨ (isR ∧ m.fromPos = ⟨7, 7⟩) then false
             else b.blackCanCastleKingside
  let bqs := if (isK ∧ piece.isWhite = false) ∨ (isR ∧ m.fromPos = ⟨0, 7⟩) then false
             else b.blackCanCastleQueenside
  ⟨g3, !b.whiteToMove, ept, wks, wqs, bks, bqs, b.moveHistory ++ [m], b.gameMode⟩

/-- `Board.is_in_check`. -/
def Board.isInCheck (b : Board) : Bool :=
  match b.findKing b.whiteToMove with
  | some kp => b.isUnderNativeAttack kp (!b.whiteToMove)
  | none => false

/-- `Board.is_checkmate`. -/
def Board.isCheckmate (b : Board) : Bool :=
  b.isInCheck && decide (b.generateAllLegalMoves.length = 0)

/-- `Board.is_stalemate`. -/
def Board.isStalemate (b : Board) : Bool :=
  !b.isInCheck && decide (b.generateAllLegalMoves.length = 0)

/-- `Position.to_algebraic`. -/
def Pos.toAlg (p : Pos) : String :=
  String.mk [Char.ofNat (97 + p.x.toNat), Char.ofNat (49 + p.y.toNat)]

/-- Python `str.strip()` on a character sequence (whitespace trimmed
from both ends). -/
def pyStrip (l : List Char) : List Char :=
  ((l.dropWhile Char.isWhitespace).reverse.dropWhile Char.isWhitespace).reverse

/-- Python `str.replace(c, "")`: every occurrence of the one-character
pattern removed. -/
def pyRemoveChar (c : Char) (l : List Char) : List Char :=
  l.filter fun a => decide (a ≠ c)

/-- `Position.from_algebraic` on a character sequence, with the
`ValueError` paths (wrong length, non-digit rank character, out-of-board
coordinates) as `none`. -/
def posFromAlgebraic (cs : List Char) : Option Pos :=
  match cs with
  | [c0, c1] =>
      if c1.isDigit then
        let p : Pos := ⟨(c0.toLower.toNat : Int) - 97, (c1.toNat : Int) - 49⟩
        if p.isValid then some p else none
      else none
  | _ => none

/-- `PieceType.name` (the Python enum member name, used in log messages). -/
def PieceType.enumName : PieceType → String
  | .king => "KING"
  | .queen => "QUEEN"
  | .rook => "ROOK"
  | .bishop => "BISHOP"
  | .knight => "KNIGHT"
  | .pawn => "PAWN"

/-- `Move.to_notation`: the annotation string of one move. -/
def Move.render (m : Move) : String :=
  if m.isCastling then
    (if m.toPos.x > m.fromPos.x then "O-O" else "O-O-O")
  else
    (if m.piece.pieceType ≠ .pawn then m.piece.pieceType.symbol else "") ++
    (match m.isTransporter, m.borrowedFrom with
     | true, some bp => "~" ++ bp.pieceType.symbol
     | _, _ => "") ++
    m.fromPos.toAlg ++
    (if m.isCapture then "x" else "-") ++
    m.toPos.toAlg ++
    (match m.promotionType with
     | some pt => "=" ++ pt.symbol ++ (if m.isPawnKnightApex then "!" else "")
     | none => "")

/-- `GameState` of engine.py. -/
inductive GameState where
  | ONGOING
  | WHITE_WINS_CHECKMATE
  | BLACK_WINS_CHECKMATE
  | STALEMATE
  | DRAW_BY_REPETITION
  | DRAW_BY_FIFTY_MOVES
deriving DecidableEq

/-- The enum's `value` strings. -/
def GameState.value : GameState → String
  | .ONGOING => "ongoing"
  | .WHITE_WINS_CHECKMATE => "white_wins_checkmate"
  | .BLACK_WINS_CHECKMATE => "black_wins_checkmate"
  | .STALEMATE => "stalemate"
  | .DRAW_BY_REPETITION => "draw_by_repetition"
  | .DRAW_BY_FIFTY_MOVES => "draw_by_fifty_moves"

/-- `MoveResult` of engine.py. -/
structure MoveResult where
  success : Bool
  message : String
  move : Option Move
  givesCheck : Bool
  isCheckmateResult : Bool
deriving DecidableEq

/-- `TetherChessEngine`: one board, the game-state tag and the log.
(`TetherChessEngine.__init__` builds its board as `Board()`, whose
default argument is the failing attribute access of claim C1; engine
states are modelled over any board.) -/
structure TetherChessEngine where
  board : Board
  gameState : GameState
  gameLog : List String

/-- `TetherChessEngine._find_move`: first legal move of the piece at
`fromPos` whose destination matches.  The move generator is called
without a board position, so the piece is located by the board scan. -/
def TetherChessEngine.findMove (e : TetherChessEngine) (fromPos toPos : Pos) : Option Move :=
  match e.board.getPieceAt fromPos with
  | none => none
  | some piece =>
      (e.board.generateLegalMovesForPiece piece false none).find? fun mv =>
        decide (mv.toPos = toPos)

/-- `TetherChessEngine._execute_move`: commit the move, recompute
check/checkmate/stalemate, advance the state machine, append the log
line, and report success. -/
def TetherChessEngine.executeMove (e : TetherChessEngine) (mv : Move) :
    MoveResult × TetherChessEngine :=
  let b := e.board.makeMove mv
  let givesCheck := b.isInCheck
  let isMate := b.isCheckmate
  let isStale := b.isStalemate
  let gs :=
    if isMate then
      (if b.whiteToMove then GameState.BLACK_WINS_CHECKMATE else GameState.WHITE_WINS_CHECKMATE)
    else if isStale then GameState.STALEMATE
    else e.gameState
  let ann := if isMate then "#" else if isStale then "" else if givesCheck then "+" else ""
  let msg :=
    String.intercalate " "
      ([mv.render ++ ann] ++
        (match mv.isTransporter, mv.borrowedFrom with
         | true, some bp =>
             ["(Transporter: borrowed " ++ bp.pieceType.enumName ++ " movement)"]
         | _, _ => []) ++
        (if mv.isPawnKnightApex then ["[PAWN-KNIGHT APEX! Instant promotion!]"] else []) ++
        (if isMate then ["CHECKMATE!"]
         else if isStale then ["STALEMATE!"]
         else if givesCheck then ["Check!"]
         else []))
  (⟨true, msg, some mv, givesCheck, isMate⟩, ⟨b, gs, e.gameLog ++ [msg]⟩)

/-- `TetherChessEngine.make_move`: validates terminal state, origin
occupancy, turn ownership and legality (with the promotion choice
defaulting to Queen), then executes; every failure returns the engine
unchanged. -/
def TetherChessEngine.makeMove (e : TetherChessEngine) (fromPos toPos : Pos)
    (promotionType : Option PieceType) : MoveResult × TetherChessEngine :=
  if e.gameState ≠ .ONGOING then
    (⟨false, "Game is over: " ++ e.gameState.value, none, false, false⟩, e)
  else
    match e.board.getPieceAt fromPos with
    | none => (⟨false, "No piece at " ++ fromPos.toAlg, none, false, false⟩, e)
    | some piece =>
        if piece.isWhite ≠ e.board.whiteToMove then
          (⟨false, "Not your turn", none, false, false⟩, e)
        else
          match (e.board.generateLegalMovesForPiece piece false none).find? fun mv =>
              decide (mv.toPos = toPos) &&
                (match mv.promotionType with
                 | some pt => decide (pt = promotionType.getD .queen)
                 | none => true) with
          | none =>
              (⟨false, "Illegal move: " ++ fromPos.toAlg ++ " to " ++ toPos.toAlg,
                none, false, false⟩, e)
          | some mv => e.executeMove mv

/-- The coordinate-pair tail of `TetherChessEngine._parse_move`: strip
every '-' and 'x', take the first four remaining characters as two
algebraic squares, and look the move up; `none` on any `ValueError`. -/
def TetherChessEngine.parseCoordMove (e : TetherChessEngine) (t : List Char) : Option Move :=
  if 4 ≤ (pyRemoveChar 'x' (pyRemoveChar '-' t)).length then
    match posFromAlgebraic ((pyRemoveChar 'x' (pyRemoveChar '-' t)).take 2),
        posFromAlgebraic (((pyRemoveChar 'x' (pyRemoveChar '-' t)).drop 2).take 2) with
    | some fp, some tp => e.findMove fp tp
    | _, _ => none
  else none

/-- `TetherChessEngine._parse_move`: the four castling strings (falling
through to coordinate parsing when the side has no king), else the
coordinate-pair form. -/
def TetherChessEngine.parseMoveText (e : TetherChessEngine) (s : String) : Option Move :=
  if pyStrip s.toList = "O-O".toList ∨ pyStrip s.toList = "0-0".toList then
    match e.board.findKing e.board.whiteToMove with
    | some kp => e.findMove kp (kp.offset 2 0)
    | none => e.parseCoordMove (pyStrip s.toList)
  else if pyStrip s.toList = "O-O-O".toList ∨ pyStrip s.toList = "0-0-0".toList then
    match e.board.findKing e.board.whiteToMove with
    | some kp => e.findMove kp (kp.offset (-2) 0)
    | none => e.parseCoordMove (pyStrip s.toList)
  else e.parseCoordMove (pyStrip s.toList)

/-- `TetherChessEngine.make_move_from_notation`. -/
def TetherChessEngine.makeMoveFromText (e : TetherChessEngine) (s : String) :
    MoveResult × TetherChessEngine :=
  if e.gameState ≠ .ONGOING then
    (⟨false, "Game is over: " ++ e.gameState.value, none, false, false⟩, e)
  else
    match e.parseMoveText s with
    | none => (⟨false, "Invalid move notation: " ++ s, none, false, false⟩, e)
    | some mv => e.executeMove mv

/-- Destinations of the produced moves. -/
def toPosL (ms : List Move) : List Pos := ms.map Move.toPos

/-- The invariant the transporter loops maintain: `seen_targets` is
exactly the set of destinations of the moves produced so far. -/
def seenInv (st : MS) : Prop := ∀ p : Pos, p ∈ st.2 ↔ p ∈ toPosL st.1

/-- The destination squares one sliding transporter ray contributes,
ignoring deduplication (specification of `transRay`). -/
def rayDests (b : Board) (piece : Piece) (pbp : Pos) (transparent : Bool)
    (mo : Pos) (dx dy : Int) : List Int → List Pos
  | [] => []
  | d :: rest =>
      if (mo.offset (dx * d) (dy * d)).isValid = false then []
      else if mo.offset (dx * d) (dy * d) = pbp then
        (if transparent then rayDests b piece pbp transparent mo dx dy rest
         else if (b.getPieceAt (mo.offset (dx * d) (dy * d))).isSome then []
         else rayDests b piece pbp transparent mo dx dy rest)
      else
        match b.getPieceAt (mo.offset (dx * d) (dy * d)) with
        | some q =>
            if q.isWhite = piece.isWhite then []
            else [mo.offset (dx * d) (dy * d)]
        | none =>
            mo.offset (dx * d) (dy * d) :: rayDests b piece pbp transparent mo dx dy rest

/-- The destination square (if any) one non-sliding transporter vector
contributes (specification of `transStep`). -/
def stepDests (b : Board) (piece : Piece) (pbp : Pos) (mo : Pos) (dx dy : Int) : List Pos :=
  if (mo.offset dx dy).isValid = false then []
  else if mo.offset dx dy = pbp then []
  else
    match b.getPieceAt (mo.offset dx dy) with
    | some q => if q.isWhite = piece.isWhite then [] else [mo.offset dx dy]
    | none => [mo.offset dx dy]

/-- The destination squares one vector contributes. -/
def vecDests (b : Board) (piece : Piece) (pbp : Pos) (transparent : Bool)
    (mo : Pos) (v : Vec) : List Pos :=
  if v.2.2 then rayDests b piece pbp transparent mo v.1 v.2.1 rayDistances
  else stepDests b piece pbp mo v.1 v.2.1

/-- The move the transporter loops build for destination `t`: captured
piece is exactly the occupant of `t`. -/
def rayMoveOf (b : Board) (piece : Piece) (pbp : Pos) (mate : Piece) (t : Pos) : Move :=
  createTransporterMove piece pbp t mate (b.getPieceAt t)

/-- Scenario board of spec §8 "Scenario A": White King e1, White Rook a1,
White Knight b1, Black King e8, White to move, rank-entangled LINEAR
mode. -/
def wk2 : Piece := ⟨.king, true, ⟨4, 0⟩, false⟩

def wr2 : Piece := ⟨.rook, true, ⟨0, 0⟩, false⟩

def wn2 : Piece := ⟨.knight, true, ⟨1, 0⟩, false⟩

def bk2 : Piece := ⟨.king, false, ⟨4, 7⟩, false⟩

def grid2 : Grid :=
  setCell (setCell (setCell (setCell emptyGrid ⟨4, 0⟩ (some wk2)) ⟨0, 0⟩ (some wr2))
    ⟨1, 0⟩ (some wn2)) ⟨4, 7⟩ (some bk2)

def board2 : Board := ⟨grid2, true, none, true, true, true, true, [], .LINEAR_RANK⟩

/-- King step e1-d1 on the Scenario A board (C3's witness move). -/
def mC3w : Move := Move.basic ⟨4, 0⟩ ⟨3, 0⟩ wk2 none

/-- Rook push a1-a2 on the Scenario A board (C4's witness move). -/
def mC4w : Move := Move.basic ⟨0, 0⟩ ⟨0, 1⟩ wr2 none

/-- Pieces of spec §8 "Scenario B": White Pawn b6 and White Knight a6. -/
def pw6 : Piece := ⟨.pawn, true, ⟨1, 5⟩, false⟩

def kn6 : Piece := ⟨.knight, true, ⟨0, 5⟩, false⟩

/-- An engine state over an empty LINEAR_RANK board (C7's witness). -/
def e7 : TetherChessEngine := ⟨Board.init .LINEAR_RANK, .ONGOING, []⟩

/-- Engine with White King a1, White Pawn e2, Black King h8, White to
move (C8's inputs). -/
def wk8 : Piece := ⟨.king, true, ⟨0, 0⟩, false⟩

def wp8 : Piece := ⟨.pawn, true, ⟨4, 1⟩, false⟩

def bk8 : Piece := ⟨.king, false, ⟨7, 7⟩, false⟩

def grid8 : Grid :=
  setCell (setCell (setCell emptyGrid ⟨0, 0⟩ (some wk8)) ⟨4, 1⟩ (some wp8)) ⟨7, 7⟩ (some bk8)

def board8 : Board := ⟨grid8, true, none, true, true, true, true, [], .LINEAR_RANK⟩

def e8 : TetherChessEngine := ⟨board8, .ONGOING, []⟩

/-- The double pawn push e2-e4 of that engine. -/
def mv8 : Move := Move.basic ⟨4, 1⟩ ⟨4, 3⟩ wp8 none

/-- A board whose White side has no king: White Pawn a2, Black King e8
(C9's inputs). -/
def wp9 : Piece := ⟨.pawn, true, ⟨0, 1⟩, false⟩

def bk9 : Piece := ⟨.king, false, ⟨4, 7⟩, false⟩

def grid9 : Grid := setCell (setCell emptyGrid ⟨0, 1⟩ (some wp9)) ⟨4, 7⟩ (some bk9)

def board9 : Board := ⟨grid9, true, none, true, true, true, true, [], .LINEAR_RANK⟩

def m9 : Move := Move.basic ⟨0, 1⟩ ⟨0, 2⟩ wp9 none

/-- A board where a rank-mate pawn's forward square holds an enemy piece:
White Rook a4 (mover), White Pawn b4, Black Knight b5 (C10's inputs). -/
def wr10 : Piece := ⟨.rook, true, ⟨0, 3⟩, false⟩

def wp10 : Piece := ⟨.pawn, true, ⟨1, 3⟩, false⟩

def bn10 : Piece := ⟨.knight, false, ⟨1, 4⟩, false⟩

def grid10 : Grid :=
  setCell (setCell (setCell emptyGrid ⟨0, 3⟩ (some wr10)) ⟨1, 3⟩ (some wp10)) ⟨1, 4⟩ (some bn10)

def board10 : Board := ⟨grid10, true, none, true, true, true, true, [], .LINEAR_RANK⟩

lemma toPosL_append (l1 l2 : List Move) : toPosL (l1 ++ l2) = toPosL l1 ++ toPosL l2 :=
  List.map_append _ _ _

lemma mem_toPosL {p : Pos} {l : List Move} : p ∈ toPosL l ↔ ∃ m ∈ l, m.toPos = p := by
  simp [toPosL]

lemma createTransporterMove_toPos (piece : Piece) (pbp t : Pos) (mate : Piece)
    (cap : Option Piece) : (createTransporterMove piece pbp t mate cap).toPos = t := rfl

lemma mem_toPosL_append_singleton {p : Pos} {l : List Move} {mv : Move} :
    p ∈ toPosL (l ++ [mv]) ↔ p ∈ toPosL l ∨ p = mv.toPos := by
  simp [toPosL, eq_comm]

lemma addIfNew_spec {st : MS} {t : Pos} {mv : Move} (hs : seenInv st) (ht : mv.toPos = t) :
    seenInv (addIfNew st t mv) ∧
      (∀ p, p ∈ toPosL (addIfNew st t mv).1 ↔ p ∈ toPosL st.1 ∨ p = t) ∧
      (∀ m, m ∈ (addIfNew st t mv).1 → m ∈ st.1 ∨ m = mv) := by
  unfold addIfNew
  by_cases hm : t ∈ st.2
  · rw [if_pos hm]
    refine ⟨hs, fun p => ⟨Or.inl, ?_⟩, fun m hm2 => Or.inl hm2⟩
    rintro (h | rfl)
    · exact h
    · exact (hs p).mp hm
  · rw [if_neg hm]
    refine ⟨fun p => ?_, fun p => ?_, fun m hm2 => ?_⟩
    · rw [List.mem_cons, mem_toPosL_append_singleton, ht, hs p]
      tauto
    · rw [mem_toPosL_append_singleton, ht]
    · rcases List.mem_append.mp hm2 with h | h
      · exact Or.inl h
      · exact Or.inr (List.mem_singleton.mp h)

lemma transStep_spec (b : Board) (piece : Piece) (pbp : Pos) (mate : Piece) (mo : Pos)
    (dx dy : Int) {st : MS} (hs : seenInv st) :
    seenInv (transStep b piece pbp mate mo dx dy st) ∧
      (∀ p, p ∈ toPosL (transStep b piece pbp mate mo dx dy st).1 ↔
        p ∈ toPosL st.1 ∨ p ∈ stepDests b piece pbp mo dx dy) ∧
      (∀ m, m ∈ (transStep b piece pbp mate mo dx dy st).1 →
        m ∈ st.1 ∨ ∃ t, t ∈ stepDests b piece pbp mo dx dy ∧
          m = rayMoveOf b piece pbp mate t) := by
  unfold transStep stepDests
  by_cases hv : (Pos.offset mo dx dy).isValid = false
  · rw [if_pos hv, if_pos hv]
    exact ⟨hs, fun p => by simp, fun m hm => Or.inl hm⟩
  · rw [if_neg hv, if_neg hv]
    by_cases hp : Pos.offset mo dx dy = pbp
    · rw [if_pos hp, if_pos hp]
      exact ⟨hs, fun p => by simp, fun m hm => Or.inl hm⟩
    · rw [if_neg hp, if_neg hp]
      cases hq : b.getPieceAt (Pos.offset mo dx dy) with
      | none =>
          simp only [hq]
          obtain ⟨h1, h2, h3⟩ :=
            addIfNew_spec hs (createTransporterMove_toPos piece pbp (Pos.offset mo dx dy) mate none)
          refine ⟨h1, fun p => ?_, fun m hm => ?_⟩
          · rw [h2 p]; simp
          · rcases h3 m hm with h | h
            · exact Or.inl h
            · refine Or.inr ⟨Pos.offset mo dx dy, by simp, ?_⟩
              rw [h, rayMoveOf, hq]
      | some q =>
          simp only [hq]
          by_cases hw : q.isWhite = piece.isWhite
          · rw [if_pos hw, if_pos hw]
            exact ⟨hs, fun p => by simp, fun m hm => Or.inl hm⟩
          · rw [if_neg hw, if_neg hw]
            obtain ⟨h1, h2, h3⟩ :=
              addIfNew_spec hs
                (createTransporterMove_toPos piece pbp (Pos.offset mo dx dy) mate (some q))
            refine ⟨h1, fun p => ?_, fun m hm => ?_⟩
            · rw [h2 p]; simp
            · rcases h3 m hm with h | h
              · exact Or.inl h
              · refine Or.inr ⟨Pos.offset mo dx dy, by simp, ?_⟩
                rw [h, rayMoveOf, hq]

lemma transRay_spec (b : Board) (piece : Piece) (pbp : Pos) (tr : Bool) (mate : Piece)
    (mo : Pos) (dx dy : Int) :
    ∀ (ds : List Int) (st : MS), seenInv st →
      seenInv (transRay b piece pbp tr mate mo dx dy ds st) ∧
        (∀ p, p ∈ toPosL (transRay b piece pbp tr mate mo dx dy ds st).1 ↔
          p ∈ toPosL st.1 ∨ p ∈ rayDests b piece pbp tr mo dx dy ds) ∧
        (∀ m, m ∈ (transRay b piece pbp tr mate mo dx dy ds st).1 →
          m ∈ st.1 ∨ ∃ t, t ∈ rayDests b piece pbp tr mo dx dy ds ∧
            m = rayMoveOf b piece pbp mate t) := by
  intro ds
  induction ds with
  | nil =>
      intro st hs
      exact ⟨hs, fun p => by simp [transRay, rayDests], fun m hm => Or.inl hm⟩
  | cons d rest ih =>
      intro st hs
      rw [transRay, rayDests]
      by_cases hv : (Pos.offset mo (dx * d) (dy * d)).isValid = false
      · rw [if_pos hv, if_pos hv]
        exact ⟨hs, fun p => by simp, fun m hm => Or.inl hm⟩
      · rw [if_neg hv, if_neg hv]
        by_cases hp : Pos.offset mo (dx * d) (dy * d) = pbp
        · rw [if_pos hp, if_pos hp]
          cases tr with
          | true =>
              simp only [if_pos rfl, if_true]
              exact ih st hs
          | false =>
              simp only [Bool.false_eq_true, if_false]
              by_cases ho : (b.getPieceAt (Pos.offset mo (dx * d) (dy * d))).isSome = true
              · rw [if_pos ho, if_pos ho]
                exact ⟨hs, fun p => by simp, fun m hm => Or.inl hm⟩
              · rw [if_neg ho, if_neg ho]
                exact ih st hs
        · rw [if_neg hp, if_neg hp]
          cases hq : b.getPieceAt (Pos.offset mo (dx * d) (dy * d)) with
          | some q =>
              simp only [hq]
              by_cases hw : q.isWhite = piece.isWhite
              · rw [if_pos hw, if_pos hw]
                exact ⟨hs, fun p => by simp, fun m hm => Or.inl hm⟩
              · rw [if_neg hw, if_neg hw]
                obtain ⟨h1, h2, h3⟩ :=
                  addIfNew_spec hs
                    (createTransporterMove_toPos piece pbp (Pos.offset mo (dx * d) (dy * d))
                      mate (some q))
                refine ⟨h1, fun p => ?_, fun m hm => ?_⟩
                · rw [h2 p]; simp
                · rcases h3 m hm with h | h
                  · exact Or.inl h
                  · refine Or.inr ⟨Pos.offset mo (dx * d) (dy * d), by simp, ?_⟩
                    rw [h, rayMoveOf, hq]
          | none =>
              simp only [hq]
              obtain ⟨h1, h2, h3⟩ :=
                addIfNew_spec hs
                  (createTransporterMove_toPos piece pbp (Pos.offset mo (dx * d) (dy * d))
                    mate none)
              obtain ⟨g1, g2, g3⟩ := ih _ h1
              refine ⟨g1, fun p => ?_, fun m hm => ?_⟩
              · rw [g2 p, h2 p, List.mem_cons]
                tauto
              · rcases g3 m hm with h | ⟨t, ht, hm2⟩
                · rcases h3 m h with h' | h'
                  · exact Or.inl h'
                  · refine Or.inr ⟨Pos.offset mo (dx * d) (dy * d), List.mem_cons_self _ _, ?_⟩
                    rw [h', rayMoveOf, hq]
                · exact Or.inr ⟨t, List.mem_cons_of_mem _ ht, hm2⟩

lemma transVec_spec (b : Board) (piece : Piece) (pbp : Pos) (tr : Bool) (mate : Piece)
    (mo : Pos) (v : Vec) {st : MS} (hs : seenInv st) :
    seenInv (transVec b piece pbp tr mate mo v st) ∧
      (∀ p, p ∈ toPosL (transVec b piece pbp tr mate mo v st).1 ↔
        p ∈ toPosL st.1 ∨ p ∈ vecDests b piece pbp tr mo v) ∧
      (∀ m, m ∈ (transVec b piece pbp tr mate mo v st).1 →
        m ∈ st.1 ∨ ∃ t, t ∈ vecDests b piece pbp tr mo v ∧ m = rayMoveOf b piece pbp mate t) := by
  unfold transVec vecDests
  by_cases hsl : v.2.2 = true
  · rw [if_pos hsl, if_pos hsl]
    exact transRay_spec b piece pbp tr mate mo v.1 v.2.1 rayDistances st hs
  · rw [if_neg hsl, if_neg hsl]
    exact transStep_spec b piece pbp mate mo v.1 v.2.1 hs

lemma transVecs_spec (b : Board) (piece : Piece) (pbp : Pos) (tr : Bool) (mate : Piece)
    (mo : Pos) :
    ∀ (vs : List Vec) (st : MS), seenInv st →
      seenInv (transVecs b piece pbp tr mate mo vs st) ∧
        (∀ p, p ∈ toPosL (transVecs b piece pbp tr mate mo vs st).1 ↔
          p ∈ toPosL st.1 ∨ ∃ v ∈ vs, p ∈ vecDests b piece pbp tr mo v) ∧
        (∀ m, m ∈ (transVecs b piece pbp tr mate mo vs st).1 →
          m ∈ st.1 ∨ ∃ v ∈ vs, ∃ t, t ∈ vecDests b piece pbp tr mo v ∧
            m = rayMoveOf b piece pbp mate t) := by
  intro vs
  induction vs with
  | nil =>
      intro st hs
      exact ⟨hs, fun p => by simp [transVecs], fun m hm => Or.inl hm⟩
  | cons v rest ih =>
      intro st hs
      obtain ⟨h1, h2, h3⟩ := transVec_spec b piece pbp tr mate mo v hs
      obtain ⟨g1, g2, g3⟩ := ih (transVec b piece pbp tr mate mo v st) h1
      rw [show transVecs b piece pbp tr mate mo (v :: rest) st =
            transVecs b piece pbp tr mate mo rest (transVec b piece pbp tr mate mo v st)
          from rfl]
      refine ⟨g1, fun p => ?_, fun m hm => ?_⟩
      · rw [g2 p, h2 p]
        constructor
        · rintro ((h | h) | ⟨v', hv', h⟩)
          · exact Or.inl h
          · exact Or.inr ⟨v, List.mem_cons_self _ _, h⟩
          · exact Or.inr ⟨v', List.mem_cons_of_mem _ hv', h⟩
        · rintro (h | ⟨v', hv', h⟩)
          · exact Or.inl (Or.inl h)
          · rcases List.mem_cons.mp hv' with rfl | hv2
            · exact Or.inl (Or.inr h)
            · exact Or.inr ⟨v', hv2, h⟩
      · rcases g3 m hm with h | ⟨v', hv', t, ht, hm2⟩
        · rcases h3 m h with h' | ⟨t, ht, hm2⟩
          · exact Or.inl h'
          · exact Or.inr ⟨v, List.mem_cons_self _ _, t, ht, hm2⟩
        · exact Or.inr ⟨v', List.mem_cons_of_mem _ hv', t, ht, hm2⟩

lemma transLaunches_spec (b : Board) (piece : Piece) (pbp : Pos) (tr : Bool)
    (vecsFor : Piece × Pos → List Vec) :
    ∀ (prs : List (Piece × Pos)) (st : MS), seenInv st →
      seenInv (transLaunches b piece pbp tr vecsFor prs st) ∧
        (∀ p, p ∈ toPosL (transLaunches b piece pbp tr vecsFor prs st).1 ↔
          p ∈ toPosL st.1 ∨ ∃ pr ∈ prs, ∃ v ∈ vecsFor pr, p ∈ vecDests b piece pbp tr pr.2 v) ∧
        (∀ m, m ∈ (transLaunches b piece pbp tr vecsFor prs st).1 →
          m ∈ st.1 ∨ ∃ pr ∈ prs, ∃ v ∈ vecsFor pr, ∃ t, t ∈ vecDests b piece pbp tr pr.2 v ∧
            m = rayMoveOf b piece pbp pr.1 t) := by
  intro prs
  induction prs with
  | nil =>
      intro st hs
      exact ⟨hs, fun p => by simp [transLaunches], fun m hm => Or.inl hm⟩
  | cons pr rest ih =>
      intro st hs
      obtain ⟨h1, h2, h3⟩ := transVecs_spec b piece pbp tr pr.1 pr.2 (vecsFor pr) st hs
      obtain ⟨g1, g2, g3⟩ := ih (transVecs b piece pbp tr pr.1 pr.2 (vecsFor pr) st) h1
      rw [show transLaunches b piece pbp tr vecsFor (pr :: rest) st =
            transLaunches b piece pbp tr vecsFor rest
              (transVecs b piece pbp tr pr.1 pr.2 (vecsFor pr) st) from rfl]
      refine ⟨g1, fun p => ?_, fun m hm => ?_⟩
      · rw [g2 p, h2 p]
        constructor
        · rintro ((h | ⟨v, hv, h⟩) | ⟨pr', hpr', v, hv, h⟩)
          · exact Or.inl h
          · exact Or.inr ⟨pr, List.mem_cons_self _ _, v, hv, h⟩
          · exact Or.inr ⟨pr', List.mem_cons_of_mem _ hpr', v, hv, h⟩
        · rintro (h | ⟨pr', hpr', v, hv, h⟩)
          · exact Or.inl (Or.inl h)
          · rcases List.mem_cons.mp hpr' with rfl | hpr2
            · exact Or.inl (Or.inr ⟨v, hv, h⟩)
            · exact Or.inr ⟨pr', hpr2, v, hv, h⟩
      · rcases g3 m hm with h | ⟨pr', hpr', v, hv, t, ht, hm2⟩
        · rcases h3 m h with h' | ⟨v, hv, t, ht, hm2⟩
          · exact Or.inl h'
          · exact Or.inr ⟨pr, List.mem_cons_self _ _, v, hv, t, ht, hm2⟩
        · exact Or.inr ⟨pr', List.mem_cons_of_mem _ hpr', v, hv, t, ht, hm2⟩

lemma seenInv_nil : seenInv (([], []) : MS) := by
  intro p
  simp [toPosL]

lemma calcLinear_mem_iff (b : Board) (piece : Piece) (mates : List (Piece × Pos))
    (pbp : Pos) (p : Pos) :
    p ∈ toPosL (b.calcLinearTransporter piece mates (some pbp)) ↔
      ∃ pr ∈ mates, ∃ v ∈ pr.1.getNativeMovementVectors,
        p ∈ vecDests b piece pbp false pr.2 v := by
  obtain ⟨_, h2, _⟩ :=
    transLaunches_spec b piece pbp false (fun pr => pr.1.getNativeMovementVectors)
      mates ([], []) seenInv_nil
  rw [show b.calcLinearTransporter piece mates (some pbp) =
      (transLaunches b piece pbp false (fun pr => pr.1.getNativeMovementVectors)
        mates (([], []) : MS)).1 from rfl, h2 p]
  simp [toPosL]

lemma calcLinear_provenance (b : Board) (piece : Piece) (mates : List (Piece × Pos))
    (pbp : Pos) :
    ∀ m ∈ b.calcLinearTransporter piece mates (some pbp),
      ∃ pr ∈ mates, ∃ v ∈ pr.1.getNativeMovementVectors,
        ∃ t, t ∈ vecDests b piece pbp false pr.2 v ∧ m = rayMoveOf b piece pbp pr.1 t := by
  obtain ⟨_, _, h3⟩ :=
    transLaunches_spec b piece pbp false (fun pr => pr.1.getNativeMovementVectors)
      mates ([], []) seenInv_nil
  intro m hm
  rcases h3 m hm with h | h
  · simp at h
  · exact h

lemma calcQuantum_mem_iff (b : Board) (piece : Piece) (mates : List (Piece × Pos))
    (pbp : Pos) (p : Pos) :
    p ∈ toPosL (b.calcQuantumTransporter piece mates (some pbp)) ↔
      ∃ pr ∈ (piece, pbp) :: mates, ∃ v ∈ allVectorsOf piece mates,
        p ∈ vecDests b piece pbp true pr.2 v := by
  obtain ⟨_, h2, _⟩ :=
    transLaunches_spec b piece pbp true (fun _ => allVectorsOf piece mates)
      ((piece, pbp) :: mates) ([], []) seenInv_nil
  rw [show b.calcQuantumTransporter piece mates (some pbp) =
      (transLaunches b piece pbp true (fun _ => allVectorsOf piece mates)
        ((piece, pbp) :: mates) (([], []) : MS)).1 from rfl, h2 p]
  simp [toPosL]

lemma calcQuantum_provenance (b : Board) (piece : Piece) (mates : List (Piece × Pos))
    (pbp : Pos) :
    ∀ m ∈ b.calcQuantumTransporter piece mates (some pbp),
      ∃ pr ∈ (piece, pbp) :: mates, ∃ v ∈ allVectorsOf piece mates,
        ∃ t, t ∈ vecDests b piece pbp true pr.2 v ∧ m = rayMoveOf b piece pbp pr.1 t := by
  obtain ⟨_, _, h3⟩ :=
    transLaunches_spec b piece pbp true (fun _ => allVectorsOf piece mates)
      ((piece, pbp) :: mates) ([], []) seenInv_nil
  intro m hm
  rcases h3 m hm with h | h
  · simp at h
  · exact h

lemma rayDests_mono (b : Board) (piece : Piece) (pbp : Pos) (mo : Pos) (dx dy : Int) :
    ∀ (ds : List Int) (p : Pos), p ∈ rayDests b piece pbp false mo dx dy ds →
      p ∈ rayDests b piece pbp true mo dx dy ds := by
  intro ds
  induction ds with
  | nil => simp [rayDests]
  | cons d rest ih =>
      intro p hp
      rw [rayDests] at hp ⊢
      by_cases hv : (Pos.offset mo (dx * d) (dy * d)).isValid = false
      · rw [if_pos hv] at hp
        simp at hp
      · rw [if_neg hv] at hp ⊢
        by_cases hq2 : Pos.offset mo (dx * d) (dy * d) = pbp
        · rw [if_pos hq2] at hp ⊢
          simp only [Bool.false_eq_true, if_false] at hp
          rw [if_pos rfl]
          by_cases ho : (b.getPieceAt (Pos.offset mo (dx * d) (dy * d))).isSome = true
          · rw [if_pos ho] at hp
            simp at hp
          · rw [if_neg ho] at hp
            exact ih p hp
        · rw [if_neg hq2] at hp ⊢
          cases hq : b.getPieceAt (Pos.offset mo (dx * d) (dy * d)) with
          | some q =>
              simp only [hq] at hp ⊢
              by_cases hw : q.isWhite = piece.isWhite
              · rw [if_pos hw] at hp
                simp at hp
              · rw [if_neg hw] at hp ⊢
                exact hp
          | none =>
              simp only [hq] at hp ⊢
              rcases List.mem_cons.mp hp with rfl | hp2
              · exact List.mem_cons_self _ _
              · exact List.mem_cons_of_mem _ (ih p hp2)

lemma vecDests_mono (b : Board) (piece : Piece) (pbp : Pos) (mo : Pos) (v : Vec) (p : Pos)
    (h : p ∈ vecDests b piece pbp false mo v) : p ∈ vecDests b piece pbp true mo v := by
  unfold vecDests at h ⊢
  by_cases hsl : v.2.2 = true
  · rw [if_pos hsl] at h ⊢
    exact rayDests_mono b piece pbp mo v.1 v.2.1 rayDistances p h
  · rw [if_neg hsl] at h ⊢
    exact h

lemma mem_insertVec_of_mem {acc : List Vec} {v w : Vec} (h : v ∈ acc) : v ∈ insertVec acc w := by
  unfold insertVec
  split
  · exact h
  · exact List.mem_append_left _ h

lemma mem_foldl_insertVec_of_mem_acc {v : Vec} :
    ∀ (l : List Vec) (acc : List Vec), v ∈ acc → v ∈ l.foldl insertVec acc := by
  intro l
  induction l with
  | nil => intro acc h; exact h
  | cons w rest ih =>
      intro acc h
      exact ih (insertVec acc w) (mem_insertVec_of_mem h)

lemma self_mem_insertVec (acc : List Vec) (w : Vec) : w ∈ insertVec acc w := by
  unfold insertVec
  split
  · assumption
  · exact List.mem_append_right _ (List.mem_singleton_self _)

lemma mem_foldl_insertVec_of_mem {v : Vec} :
    ∀ (l : List Vec) (acc : List Vec), v ∈ l → v ∈ l.foldl insertVec acc := by
  intro l
  induction l with
  | nil => intro acc h; cases h
  | cons w rest ih =>
      intro acc h
      rcases List.mem_cons.mp h with rfl | h2
      · exact mem_foldl_insertVec_of_mem_acc rest _ (self_mem_insertVec acc v)
      · exact ih _ h2

lemma mem_outer_foldl_of_mem_acc {v : Vec} :
    ∀ (prs : List (Piece × Pos)) (acc : List Vec), v ∈ acc →
      v ∈ prs.foldl (fun a q => q.1.getNativeMovementVectors.foldl insertVec a) acc := by
  intro prs
  induction prs with
  | nil => intro acc h; exact h
  | cons q rest ih =>
      intro acc h
      exact ih _ (mem_foldl_insertVec_of_mem_acc _ acc h)

lemma mem_outer_foldl_of_mate {v : Vec} :
    ∀ (prs : List (Piece × Pos)) (acc : List Vec) (pr : Piece × Pos), pr ∈ prs →
      v ∈ pr.1.getNativeMovementVectors →
      v ∈ prs.foldl (fun a q => q.1.getNativeMovementVectors.foldl insertVec a) acc := by
  intro prs
  induction prs with
  | nil => intro acc pr h; cases h
  | cons q rest ih =>
      intro acc pr hpr hv
      rcases List.mem_cons.mp hpr with rfl | h2
      · exact mem_outer_foldl_of_mem_acc rest _ (mem_foldl_insertVec_of_mem _ _ hv)
      · exact ih _ pr h2 hv

lemma mem_allVectorsOf_of_mate {piece : Piece} {mates : List (Piece × Pos)}
    {pr : Piece × Pos} {v : Vec} (hpr : pr ∈ mates)
    (hv : v ∈ pr.1.getNativeMovementVectors) : v ∈ allVectorsOf piece mates :=
  mem_outer_foldl_of_mate mates _ pr hpr hv

lemma calcLinear_resolve {b : Board} {piece : Piece} {pbpO : Option Pos} {pbp : Pos}
    (mates : List (Piece × Pos)) (h : b.resolvePos piece pbpO = some pbp) :
    b.calcLinearTransporter piece mates pbpO = b.calcLinearTransporter piece mates (some pbp) := by
  unfold Board.calcLinearTransporter
  rw [h]
  rfl

lemma calcLinear_resolve_none {b : Board} {piece : Piece} {pbpO : Option Pos}
    (mates : List (Piece × Pos)) (h : b.resolvePos piece pbpO = none) :
    b.calcLinearTransporter piece mates pbpO = [] := by
  unfold Board.calcLinearTransporter
  rw [h]

lemma calcQuantum_resolve {b : Board} {piece : Piece} {pbpO : Option Pos} {pbp : Pos}
    (mates : List (Piece × Pos)) (h : b.resolvePos piece pbpO = some pbp) :
    b.calcQuantumTransporter piece mates pbpO = b.calcQuantumTransporter piece mates (some pbp) := by
  unfold Board.calcQuantumTransporter
  rw [h]
  rfl

/-- C5: for every board occupancy, moving piece and rank-mate list, the
set of destination squares the QUANTUM transporter algorithm produces
contains every destination square the LINEAR algorithm produces: every
linear destination comes from some rank-mate's own vector launched from
that mate's square, that vector belongs to the quantum unified vector
set, that mate is among the quantum launch points, and a quantum ray is
blocked no earlier than the corresponding linear ray (the mover's square
is transparent instead of blocking). -/
theorem C5_quantum_superset (b : Board) (piece : Piece) (mates : List (Piece × Pos))
    (pbpO : Option Pos) (p : Pos)
    (hp : p ∈ toPosL (b.calcLinearTransporter piece mates pbpO)) :
    p ∈ toPosL (b.calcQuantumTransporter piece mates pbpO) := by
  cases hr : b.resolvePos piece pbpO with
  | none =>
      rw [calcLinear_resolve_none mates hr] at hp
      simp [toPosL] at hp
  | some pbp =>
      rw [calcLinear_resolve mates hr, calcLinear_mem_iff] at hp
      rw [calcQuantum_resolve mates hr, calcQuantum_mem_iff]
      obtain ⟨pr, hpr, v, hv, hd⟩ := hp
      exact ⟨pr, List.mem_cons_of_mem _ hpr, v, mem_allVectorsOf_of_mate hpr hv,
        vecDests_mono b piece pbp pr.2 v p hd⟩

/-- Witness for C5: on an empty board, the white rook at a1 with the
white knight at b1 as rank-mate reaches a3 in LINEAR mode, so the
theorem places a3 among the QUANTUM destinations too. -/
theorem C5_quantum_superset_witness :
    (⟨0, 2⟩ : Pos) ∈
      toPosL ((Board.init .LINEAR_RANK).calcQuantumTransporter wr2 [(wn2, ⟨1, 0⟩)]
        (some ⟨0, 0⟩)) :=
  C5_quantum_superset (Board.init .LINEAR_RANK) wr2 [(wn2, ⟨1, 0⟩)] (some ⟨0, 0⟩) ⟨0, 2⟩
    (by decide)

/-- C1 (code bug): board.py's default constructor argument and its
transporter dispatch both evaluate enum attributes `GameMode.LINEAR` and
`GameMode.QUANTUM` that the `GameMode` enum does not define, so neither
ever yields a value: constructing a board with the default mode fails,
and the dispatch fails on every board before comparing anything, instead
of selecting the QUANTUM or LINEAR algorithm. -/
theorem C1_mode_dispatch_code_bug :
    Board.initDefault = none ∧ GameMode.member "LINEAR" = none ∧
      GameMode.member "QUANTUM" = none ∧
      ∀ (b : Board) (piece : Piece) (mates : List (Piece × Pos)) (pbpO : Option Pos),
        b.calculateTransporterVectorAsWritten piece mates pbpO = none :=
  ⟨rfl, rfl, rfl, fun _ _ _ _ => rfl⟩

/-- C2 (counterexample): on the Scenario A board the rook at a1 has 14
legal moves, not 10 as claimed. -/
theorem C2_rook_moves_not_ten :
    (board2.generateLegalMovesForPiece wr2 false (some ⟨0, 0⟩)).length ≠ 10 := by
  decide

/-- C2 (amended): on the Scenario A board the rook at a1 has exactly 14
legal moves: the 7 native moves a2-a8, then 7 transporter moves — a
knight-borrowed d2, c3 and a3 (a3 duplicating the native a3 as a second
move object) and a king-borrowed d1, e2, f1 and f2, since the king at e1
is also a rank-mate. -/
theorem C2_rook_moves_scenarioA :
    (board2.generateLegalMovesForPiece wr2 false (some ⟨0, 0⟩)).map
        (fun m => (m.toPos, m.isTransporter, m.borrowedFrom.map Piece.pieceType)) =
      [(⟨0, 1⟩, false, none), (⟨0, 2⟩, false, none), (⟨0, 3⟩, false, none),
       (⟨0, 4⟩, false, none), (⟨0, 5⟩, false, none), (⟨0, 6⟩, false, none),
       (⟨0, 7⟩, false, none),
       (⟨3, 1⟩, true, some .knight), (⟨2, 2⟩, true, some .knight),
       (⟨0, 2⟩, true, some .knight),
       (⟨3, 0⟩, true, some .king), (⟨4, 1⟩, true, some .king),
       (⟨5, 0⟩, true, some .king), (⟨5, 1⟩, true, some .king)] ∧
      (board2.generateLegalMovesForPiece wr2 false (some ⟨0, 0⟩)).length = 14 := by
  constructor
  · decide
  · decide

/-- C6: every transporter move created for a pawn whose destination lies
on its color's promotion rank carries an automatic Queen promotion,
whatever piece contributed the vector; and the move is classified as a
Pawn-Knight Apex exactly when the contributing piece is a Knight. -/
theorem C6_transporter_promotion (piece : Piece) (pbp target : Pos) (mate : Piece)
    (captured : Option Piece) (hp : piece.pieceType = .pawn)
    (hr : target.isPromotionRank piece.isWhite = true) :
    (createTransporterMove piece pbp target mate captured).promotionType = some .queen ∧
      (createTransporterMove piece pbp target mate captured).isPawnKnightApex =
        decide (mate.pieceType = .knight) := by
  unfold createTransporterMove Move.isPawnKnightApex Move.isPromo
  simp [hp, hr]

/-- Witness for C6: the Scenario B pawn at b6 with the knight at a6
teleporting to b8. -/
theorem C6_transporter_promotion_witness :
    (createTransporterMove pw6 ⟨1, 5⟩ ⟨1, 7⟩ kn6 none).promotionType = some .queen ∧
      (createTransporterMove pw6 ⟨1, 5⟩ ⟨1, 7⟩ kn6 none).isPawnKnightApex =
        decide (kn6.pieceType = .knight) :=
  C6_transporter_promotion pw6 ⟨1, 5⟩ ⟨1, 7⟩ kn6 none (by decide) (by decide)

lemma Board.ext' {b1 b2 : Board} (hsq : b1.squares = b2.squares)
    (h2 : b1.whiteToMove = b2.whiteToMove) (h3 : b1.enPassantTarget = b2.enPassantTarget)
    (h4 : b1.whiteCanCastleKingside = b2.whiteCanCastleKingside)
    (h5 : b1.whiteCanCastleQueenside = b2.whiteCanCastleQueenside)
    (h6 : b1.blackCanCastleKingside = b2.blackCanCastleKingside)
    (h7 : b1.blackCanCastleQueenside = b2.blackCanCastleQueenside)
    (h8 : b1.moveHistory = b2.moveHistory) (h9 : b1.gameMode = b2.gameMode) : b1 = b2 := by
  cases b1
  cases b2
  simp_all

lemma getPieceAt_eq_some {b : Board} {p : Pos} {pc : Piece}
    (h : b.getPieceAt p = some pc) : p.isValid = true ∧ b.squares p = some pc := by
  unfold Board.getPieceAt at h
  by_cases hv : p.isValid = true
  · rw [if_pos hv] at h
    exact ⟨hv, h⟩
  · rw [if_neg hv] at h
    cases h

/-- C4: for every pseudo-legal move (the moved piece sitting on its
origin cell, a valid destination, and — for en passant — an actual
diagonal step), the legality transaction's revert restores the exact
pre-simulation board: every grid cell, the side to move, the castling
rights, the en-passant target, the history and the mode. -/
theorem C4_simulate_revert_exact (b : Board) (m : Move)
    (h1 : b.getPieceAt m.fromPos = some m.piece)
    (h2 : m.toPos.isValid = true)
    (h3 : m.isEnPassant = true → m.toPos.x ≠ m.fromPos.x ∧ m.toPos.y ≠ m.fromPos.y) :
    b.legalityRevert m = b := by
  obtain ⟨hvF, hsqF⟩ := getPieceAt_eq_some h1
  have hcap : b.getPieceAt m.toPos = b.squares m.toPos := by
    unfold Board.getPieceAt
    rw [if_pos h2]
  refine Board.ext' ?_ rfl rfl rfl rfl rfl rfl rfl rfl
  funext q
  by_cases hep : m.isEnPassant = true
  · obtain ⟨hx, hy⟩ := h3 hep
    have hET : epPosOf m ≠ m.toPos := by
      simp only [epPosOf]
      intro hcon
      have hcy := congrArg Pos.y hcon
      simp at hcy
      exact hy hcy.symm
    have hEF : epPosOf m ≠ m.fromPos := by
      simp only [epPosOf]
      intro hcon
      have hcx := congrArg Pos.x hcon
      simp at hcx
      exact hx hcx
    have hvE : (epPosOf m).isValid = true := by
      have h2a := h2
      have hvFa := hvF
      simp only [Pos.isValid, decide_eq_true_eq] at h2a hvFa ⊢
      exact ⟨h2a.1, h2a.2.1, hvFa.2.2.1, hvFa.2.2.2⟩
    have hstage : simStage1 b m (epPosOf m) = b.squares (epPosOf m) := by
      simp only [simStage1, setCell, if_neg hET, if_neg hEF]
    have hepc : epCapturedOf b m = b.squares (epPosOf m) := by
      simp [epCapturedOf, hep, hvE, hstage]
    have hsb : (b.simulateMove m).squares = setCell (simStage1 b m) (epPosOf m) none := by
      simp [Board.simulateMove, hep]
    cases hE : b.squares (epPosOf m) with
    | some ep =>
        have hrev : (b.legalityRevert m).squares =
            setCell (setCell (setCell (b.simulateMove m).squares m.fromPos (some m.piece))
              m.toPos (b.getPieceAt m.toPos)) (epPosOf m) (some ep) := by
          simp only [Board.legalityRevert, hep, hepc, hE]
        rw [hrev]
        by_cases hqE : q = epPosOf m
        · subst hqE
          simp [setCell, hE]
        · by_cases hqT : q = m.toPos
          · subst hqT
            simp [setCell, hqE, hcap]
          · by_cases hqF : q = m.fromPos
            · subst hqF
              simp [setCell, hqE, hqT, hsqF]
            · simp [setCell, hqE, hqT, hqF, hsb, simStage1]
    | none =>
        have hrev : (b.legalityRevert m).squares =
            setCell (setCell (b.simulateMove m).squares m.fromPos (some m.piece))
              m.toPos (b.getPieceAt m.toPos) := by
          simp only [Board.legalityRevert, hep, hepc, hE]
        rw [hrev]
        by_cases hqT : q = m.toPos
        · subst hqT
          simp [setCell, hcap]
        · by_cases hqF : q = m.fromPos
          · subst hqF
            simp [setCell, hqT, hsqF]
          · by_cases hqE : q = epPosOf m
            · subst hqE
              simp [setCell, hqT, hqF, hsb, hE]
            · simp [setCell, hqE, hqT, hqF, hsb, simStage1]
  · have hepf : m.isEnPassant = false := by
      simpa using hep
    have hepc : epCapturedOf b m = none := by
      simp [epCapturedOf, hepf]
    have hsb : (b.simulateMove m).squares = simStage1 b m := by
      simp [Board.simulateMove, hepf]
    have hrev : (b.legalityRevert m).squares =
        setCell (setCell (b.simulateMove m).squares m.fromPos (some m.piece))
          m.toPos (b.getPieceAt m.toPos) := by
      simp only [Board.legalityRevert, hepf, hepc]
    rw [hrev]
    by_cases hqT : q = m.toPos
    · subst hqT
      simp [setCell, hcap]
    · by_cases hqF : q = m.fromPos
      · subst hqF
        simp [setCell, hqT, hsqF]
      · simp [setCell, hqT, hqF, hsb, simStage1]

/-- Witness for C4: reverting the simulated rook push a1-a2 on the
Scenario A board returns the identical board. -/
theorem C4_simulate_revert_witness : board2.legalityRevert mC4w = board2 :=
  C4_simulate_revert_exact board2 mC4w (by decide) (by decide) (by decide)

lemma mem_foldl_step {α : Type} (P : Move → Prop) (step : List Move → α → List Move)
    (hstep : ∀ acc a m, m ∈ step acc a → m ∈ acc ∨ P m) :
    ∀ (l : List α) (acc : List Move) (m : Move), m ∈ l.foldl step acc → m ∈ acc ∨ P m := by
  intro l
  induction l with
  | nil =>
      intro acc m hm
      exact Or.inl hm
  | cons a rest ih =>
      intro acc m hm
      rcases ih (step acc a) m hm with h | h
      · exact hstep acc a m h
      · exact Or.inr h

lemma kingNormal_mem (b : Board) (king : Piece) (origin : Pos) (m : Move)
    (hm : m ∈ king.getNativeMovementVectors.foldl
      (fun acc v =>
        if (origin.offset v.1 v.2.1).isValid = false then acc
        else
          match b.getPieceAt (origin.offset v.1 v.2.1) with
          | some q =>
              if q.isWhite = king.isWhite then acc
              else acc ++ [Move.basic origin (origin.offset v.1 v.2.1) king (some q)]
          | none => acc ++ [Move.basic origin (origin.offset v.1 v.2.1) king none]) []) :
    m.isCastling = false ∧ m.piece = king ∧ m.fromPos = origin := by
  have h := mem_foldl_step (fun mv => mv.isCastling = false ∧ mv.piece = king ∧ mv.fromPos = origin)
    _ ?_ king.getNativeMovementVectors [] m hm
  · rcases h with h | h
    · cases h
    · exact h
  · intro acc v mv hmv
    by_cases hv : (origin.offset v.1 v.2.1).isValid = false
    · rw [if_pos hv] at hmv
      exact Or.inl hmv
    · rw [if_neg hv] at hmv
      cases hq : b.getPieceAt (origin.offset v.1 v.2.1) with
      | some q =>
          simp only [hq] at hmv
          by_cases hw : q.isWhite = king.isWhite
          · rw [if_pos hw] at hmv
            exact Or.inl hmv
          · rw [if_neg hw] at hmv
            rcases List.mem_append.mp hmv with h | h
            · exact Or.inl h
            · rw [List.mem_singleton.mp h]
              exact Or.inr ⟨rfl, rfl, rfl⟩
      | none =>
          simp only [hq] at hmv
          rcases List.mem_append.mp hmv with h | h
          · exact Or.inl h
          · rw [List.mem_singleton.mp h]
            exact Or.inr ⟨rfl, rfl, rfl⟩

lemma generateKingMoves_castle_safe (b : Board) (king : Piece) (origin : Pos) (m : Move)
    (hm : m ∈ b.generateKingMoves king (some origin)) (hc : m.isCastling = true) :
    b.isUnderAnyAttack origin (!king.isWhite) = false ∧
      ((m.toPos = origin.offset 2 0 ∧
          b.isUnderAnyAttack (origin.offset 1 0) (!king.isWhite) = false ∧
          b.isUnderAnyAttack (origin.offset 2 0) (!king.isWhite) = false) ∨
        (m.toPos = origin.offset (-2) 0 ∧
          b.isUnderAnyAttack (origin.offset (-1) 0) (!king.isWhite) = false ∧
          b.isUnderAnyAttack (origin.offset (-2) 0) (!king.isWhite) = false)) := by
  rw [show b.generateKingMoves king (some origin) =
      ((king.getNativeMovementVectors.foldl
        (fun acc v =>
          if (origin.offset v.1 v.2.1).isValid = false then acc
          else
            match b.getPieceAt (origin.offset v.1 v.2.1) with
            | some q =>
                if q.isWhite = king.isWhite then acc
                else acc ++ [Move.basic origin (origin.offset v.1 v.2.1) king (some q)]
            | none => acc ++ [Move.basic origin (origin.offset v.1 v.2.1) king none]) []) ++
        (if king.hasMoved = false ∧
            (if king.isWhite then b.whiteCanCastleKingside else b.blackCanCastleKingside) = true then
            match b.getPieceAt ⟨7, origin.y⟩ with
            | some rk =>
                if rk.pieceType = .rook ∧ rk.hasMoved = false ∧
                    (b.getPieceAt (origin.offset 1 0)).isNone = true ∧
                    (b.getPieceAt (origin.offset 2 0)).isNone = true ∧
                    b.isUnderAnyAttack origin (!king.isWhite) = false ∧
                    b.isUnderAnyAttack (origin.offset 1 0) (!king.isWhite) = false ∧
                    b.isUnderAnyAttack (origin.offset 2 0) (!king.isWhite) = false then
                  [castleMoveOf origin (origin.offset 2 0) king]
                else []
            | none => []
          else [])) ++
        (if king.hasMoved = false ∧
              (if king.isWhite then b.whiteCanCastleQueenside else b.blackCanCastleQueenside) = true then
            match b.getPieceAt ⟨0, origin.y⟩ with
            | some rk =>
                if rk.pieceType = .rook ∧ rk.hasMoved = false ∧
                    (b.getPieceAt (origin.offset (-1) 0)).isNone = true ∧
                    (b.getPieceAt (origin.offset (-2) 0)).isNone = true ∧
                    (b.getPieceAt (origin.offset (-3) 0)).isNone = true ∧
                    b.isUnderAnyAttack origin (!king.isWhite) = false ∧
                    b.isUnderAnyAttack (origin.offset (-1) 0) (!king.isWhite) = false ∧
                    b.isUnderAnyAttack (origin.offset (-2) 0) (!king.isWhite) = false then
                  [castleMoveOf origin (origin.offset (-2) 0) king]
                else []
            | none => []
          else []) from rfl] at hm
  rcases List.mem_append.mp hm with hmk | hqs
  rcases List.mem_append.mp hmk with hmm | hks
  · obtain ⟨hfalse, -, -⟩ := kingNormal_mem b king origin m hmm
    rw [hc] at hfalse
    cases hfalse
  · by_cases hA : king.hasMoved = false ∧
        (if king.isWhite then b.whiteCanCastleKingside else b.blackCanCastleKingside) = true
    · rw [if_pos hA] at hks
      cases hrk : b.getPieceAt ⟨7, origin.y⟩ with
      | some rk =>
          simp only [hrk] at hks
          by_cases hB : rk.pieceType = .rook ∧ rk.hasMoved = false ∧
              (b.getPieceAt (origin.offset 1 0)).isNone = true ∧
              (b.getPieceAt (origin.offset 2 0)).isNone = true ∧
              b.isUnderAnyAttack origin (!king.isWhite) = false ∧
              b.isUnderAnyAttack (origin.offset 1 0) (!king.isWhite) = false ∧
              b.isUnderAnyAttack (origin.offset 2 0) (!king.isWhite) = false
          · rw [if_pos hB] at hks
            rw [List.mem_singleton.mp hks]
            exact ⟨hB.2.2.2.2.1, Or.inl ⟨rfl, hB.2.2.2.2.2.1, hB.2.2.2.2.2.2⟩⟩
          · rw [if_neg hB] at hks
            cases hks
      | none =>
          simp only [hrk] at hks
          cases hks
    · rw [if_neg hA] at hks
      cases hks
  · by_cases hA : king.hasMoved = false ∧
        (if king.isWhite then b.whiteCanCastleQueenside else b.blackCanCastleQueenside) = true
    · rw [if_pos hA] at hqs
      cases hrk : b.getPieceAt ⟨0, origin.y⟩ with
      | some rk =>
          simp only [hrk] at hqs
          by_cases hB : rk.pieceType = .rook ∧ rk.hasMoved = false ∧
              (b.getPieceAt (origin.offset (-1) 0)).isNone = true ∧
              (b.getPieceAt (origin.offset (-2) 0)).isNone = true ∧
              (b.getPieceAt (origin.offset (-3) 0)).isNone = true ∧
              b.isUnderAnyAttack origin (!king.isWhite) = false ∧
              b.isUnderAnyAttack (origin.offset (-1) 0) (!king.isWhite) = false ∧
              b.isUnderAnyAttack (origin.offset (-2) 0) (!king.isWhite) = false
          · rw [if_pos hB] at hqs
            rw [List.mem_singleton.mp hqs]
            exact ⟨hB.2.2.2.2.2.1, Or.inr ⟨rfl, hB.2.2.2.2.2.2.1, hB.2.2.2.2.2.2.2⟩⟩
          · rw [if_neg hB] at hqs
            cases hqs
      | none =>
          simp only [hrk] at hqs
          cases hqs
    · rw [if_neg hA] at hqs
      cases hqs

/-- C3: the legality filter's danger test on the simulated position is
exactly `is_under_any_attack` on the king's square when the moved piece
is the king (that square being the move's destination when the side's
king lookup finds the moved king there), and `is_under_native_attack` on
the side's king square otherwise; consequently an accepted king move
lands on a square free of `any_attack` in the simulated position, and
every generated castling move requires the king's start, transit and
landing squares free of `any_attack` on the pre-move board. -/
theorem C3_legality_filter (b : Board) (m : Move) :
    (m.piece.pieceType = .king →
      ∀ kp, (b.simulateMove m).findKing m.piece.isWhite = some kp →
        b.leavesKingInCheck m = (b.simulateMove m).isUnderAnyAttack kp (!m.piece.isWhite)) ∧
      (m.piece.pieceType ≠ .king →
        ∀ kp, (b.simulateMove m).findKing m.piece.isWhite = some kp →
          b.leavesKingInCheck m =
            (b.simulateMove m).isUnderNativeAttack kp (!m.piece.isWhite)) ∧
      (m.piece.pieceType = .king →
        (b.simulateMove m).findKing m.piece.isWhite = some m.toPos →
        b.leavesKingInCheck m = false →
        (b.simulateMove m).isUnderAnyAttack m.toPos (!m.piece.isWhite) = false) ∧
      (∀ (king : Piece) (origin : Pos), m ∈ b.generateKingMoves king (some origin) →
        m.isCastling = true →
        b.isUnderAnyAttack origin (!king.isWhite) = false ∧
          ((m.toPos = origin.offset 2 0 ∧
              b.isUnderAnyAttack (origin.offset 1 0) (!king.isWhite) = false ∧
              b.isUnderAnyAttack (origin.offset 2 0) (!king.isWhite) = false) ∨
            (m.toPos = origin.offset (-2) 0 ∧
              b.isUnderAnyAttack (origin.offset (-1) 0) (!king.isWhite) = false ∧
              b.isUnderAnyAttack (origin.offset (-2) 0) (!king.isWhite) = false))) := by
  refine ⟨?_, ?_, ?_, ?_⟩
  · intro hkind kp hk
    unfold Board.leavesKingInCheck Board.legalitySimDanger
    rw [hk]
    simp only [if_pos hkind]
  · intro hkind kp hk
    unfold Board.leavesKingInCheck Board.legalitySimDanger
    rw [hk]
    simp only [if_neg hkind]
  · intro hkind hk hin
    have : b.leavesKingInCheck m =
        (b.simulateMove m).isUnderAnyAttack m.toPos (!m.piece.isWhite) := by
      unfold Board.leavesKingInCheck Board.legalitySimDanger
      rw [hk]
      simp only [if_pos hkind]
    rw [this] at hin
    exact hin
  · exact fun king origin hm hc => generateKingMoves_castle_safe b king origin m hm hc

/-- Witness for C3: the king step e1-d1 on the Scenario A board passes
the filter, so its destination satisfies no `any_attack` by Black in the
simulated position. -/
theorem C3_legality_filter_witness :
    (board2.simulateMove mC3w).isUnderAnyAttack mC3w.toPos (!mC3w.piece.isWhite) = false :=
  (C3_legality_filter board2 mC3w).2.2.1 (by decide) (by decide) (by decide)

lemma rayMoveOf_fields (b : Board) (piece : Piece) (pbp : Pos) (mate : Piece) (t : Pos) :
    (rayMoveOf b piece pbp mate t).toPos = t ∧
      (rayMoveOf b piece pbp mate t).capturedPiece = b.getPieceAt t ∧
      (rayMoveOf b piece pbp mate t).isTransporter = true ∧
      (rayMoveOf b piece pbp mate t).borrowedFrom = some mate ∧
      (rayMoveOf b piece pbp mate t).piece = piece ∧
      (rayMoveOf b piece pbp mate t).fromPos = pbp :=
  ⟨rfl, rfl, rfl, rfl, rfl, rfl⟩

lemma pawn_vectors {mp : Piece} (h : mp.pieceType = .pawn) :
    mp.getNativeMovementVectors = [(0, if mp.isWhite then (1 : Int) else -1, false)] := by
  unfold Piece.getNativeMovementVectors
  rw [h]

lemma mem_stepDests {b : Board} {piece : Piece} {pbp mo : Pos} {dx dy : Int} {p : Pos}
    (h : p ∈ stepDests b piece pbp mo dx dy) : p = mo.offset dx dy := by
  unfold stepDests at h
  by_cases hv : (mo.offset dx dy).isValid = false
  · rw [if_pos hv] at h
    cases h
  · rw [if_neg hv] at h
    by_cases hp2 : mo.offset dx dy = pbp
    · rw [if_pos hp2] at h
      cases h
    · rw [if_neg hp2] at h
      cases hq : b.getPieceAt (mo.offset dx dy) with
      | some q =>
          simp only [hq] at h
          by_cases hw : q.isWhite = piece.isWhite
          · rw [if_pos hw] at h
            cases h
          · rw [if_neg hw] at h
            exact List.mem_singleton.mp h
      | none =>
          simp only [hq] at h
          exact List.mem_singleton.mp h

/-- C10: in LINEAR mode a rank-mate pawn contributes only its single
forward vector; when a rank-mate pawn's one-step-forward square (not the
mover's own square) holds an enemy piece, a transporter move to that
square carrying that capture is generated; and every linear transporter
move borrowed from a pawn lands exactly one step ahead of that pawn's
listed square, never diagonally. -/
theorem C10_pawn_rank_mate_capture (b : Board) (piece : Piece)
    (mates : List (Piece × Pos)) (pbp : Pos) :
    (∀ mp : Piece, mp.pieceType = .pawn →
      mp.getNativeMovementVectors = [(0, if mp.isWhite then (1 : Int) else -1, false)]) ∧
      (∀ (mp : Piece) (mo : Pos) (q : Piece), (mp, mo) ∈ mates → mp.pieceType = .pawn →
        (mo.offset 0 (if mp.isWhite then 1 else -1)).isValid = true →
        mo.offset 0 (if mp.isWhite then 1 else -1) ≠ pbp →
        b.getPieceAt (mo.offset 0 (if mp.isWhite then 1 else -1)) = some q →
        ¬q.isWhite = piece.isWhite →
        ∃ m ∈ b.calcLinearTransporter piece mates (some pbp),
          m.toPos = mo.offset 0 (if mp.isWhite then 1 else -1) ∧
            m.capturedPiece = some q ∧ m.isTransporter = true) ∧
      (∀ m ∈ b.calcLinearTransporter piece mates (some pbp), ∀ bp : Piece,
        m.borrowedFrom = some bp → bp.pieceType = .pawn →
        ∃ mo2, (bp, mo2) ∈ mates ∧
          m.toPos = mo2.offset 0 (if bp.isWhite then 1 else -1)) := by
  refine ⟨fun mp h => pawn_vectors h, ?_, ?_⟩
  · intro mp mo q hpr hmp hv hne hq hw
    have hstep : mo.offset 0 (if mp.isWhite then 1 else -1) ∈
        stepDests b piece pbp mo 0 (if mp.isWhite then 1 else -1) := by
      unfold stepDests
      rw [if_neg (by rw [hv]; simp), if_neg hne]
      simp only [hq]
      rw [if_neg hw]
      exact List.mem_singleton_self _
    have hvd : mo.offset 0 (if mp.isWhite then 1 else -1) ∈
        vecDests b piece pbp false mo (0, if mp.isWhite then (1 : Int) else -1, false) := by
      unfold vecDests
      simpa using hstep
    have hmem : mo.offset 0 (if mp.isWhite then 1 else -1) ∈
        toPosL (b.calcLinearTransporter piece mates (some pbp)) := by
      rw [calcLinear_mem_iff]
      exact ⟨(mp, mo), hpr, (0, if mp.isWhite then (1 : Int) else -1, false),
        by rw [pawn_vectors hmp]; exact List.mem_singleton_self _, hvd⟩
    obtain ⟨m, hm, hmt⟩ := mem_toPosL.mp hmem
    obtain ⟨pr, -, v, -, t, -, hmv⟩ := calcLinear_provenance b piece mates pbp m hm
    refine ⟨m, hm, hmt, ?_, ?_⟩
    · have hcapt : m.capturedPiece = b.getPieceAt m.toPos := by
        rw [hmv]
        rfl
      rw [hcapt, hmt, hq]
    · rw [hmv]
      rfl
  · intro m hm bp hbor hbp
    obtain ⟨pr, hpr, v, hv, t, ht, hmv⟩ := calcLinear_provenance b piece mates pbp m hm
    have hpr1 : pr.1 = bp := by
      have : (rayMoveOf b piece pbp pr.1 t).borrowedFrom = some pr.1 := rfl
      rw [hmv, this] at hbor
      exact Option.some.inj hbor
    rw [hpr1] at hv hmv
    rw [pawn_vectors hbp] at hv
    have hveq : v = (0, if bp.isWhite then (1 : Int) else -1, false) :=
      List.mem_singleton.mp hv
    rw [hveq] at ht
    unfold vecDests at ht
    simp only at ht
    have htp : t = pr.2.offset 0 (if bp.isWhite then 1 else -1) := mem_stepDests (by simpa using ht)
    refine ⟨pr.2, ?_, ?_⟩
    · have : (bp, pr.2) = pr := by
        rw [← hpr1]
      rw [this]
      exact hpr
    · rw [hmv, htp]
      rfl

/-- Witness for C10: on `board10` the rook at a4 gains a transporter
capture of the black knight b5 via its rank-mate pawn b4's forward
vector. -/
theorem C10_pawn_rank_mate_capture_witness :
    ∃ m ∈ board10.calcLinearTransporter wr10 [(wp10, ⟨1, 3⟩)] (some ⟨0, 3⟩),
      m.toPos = Pos.offset ⟨1, 3⟩ 0 (if wp10.isWhite then 1 else -1) ∧
        m.capturedPiece = some bn10 ∧ m.isTransporter = true :=
  (C10_pawn_rank_mate_capture board10 wr10 [(wp10, ⟨1, 3⟩)] ⟨0, 3⟩).2.1 wp10 ⟨1, 3⟩ bn10
    (by decide) (by decide) (by decide) (by decide) (by decide) (by decide)

lemma mem_scanPositions {p : Pos} : p ∈ scanPositions ↔ p.isValid = true := by
  unfold scanPositions
  rw [List.mem_flatMap]
  constructor
  · rintro ⟨x, hx, hp⟩
    rw [List.mem_map] at hp
    obtain ⟨y, hy, rfl⟩ := hp
    rw [List.mem_range] at hx hy
    simp only [Pos.isValid, decide_eq_true_eq]
    refine ⟨?_, ?_, ?_, ?_⟩ <;> simp <;> omega
  · intro hv
    obtain ⟨px, py⟩ := p
    simp only [Pos.isValid, decide_eq_true_eq] at hv
    refine ⟨px.toNat, ?_, ?_⟩
    · rw [List.mem_range]
      omega
    · rw [List.mem_map]
      refine ⟨py.toNat, ?_, ?_⟩
      · rw [List.mem_range]
        omega
      · simp only [Pos.mk.injEq]
        constructor <;> simp <;> omega

lemma findKing_none_squares {b : Board} {c : Bool} (hk : b.findKing c = none) {p : Pos}
    (hp : p.isValid = true) {pc : Piece} (hpc : b.squares p = some pc) :
    ¬(pc.pieceType = .king ∧ pc.isWhite = c) := by
  unfold Board.findKing at hk
  rw [List.find?_eq_none] at hk
  have := hk p (mem_scanPositions.mpr hp)
  rw [hpc] at this
  simpa using this

lemma findKing_simulate_none {b : Board} {m : Move} {c : Bool}
    (hc : m.piece.isWhite = c)
    (h1 : b.getPieceAt m.fromPos = some m.piece)
    (hk : b.findKing c = none) : (b.simulateMove m).findKing c = none := by
  obtain ⟨hvF, hsqF⟩ := getPieceAt_eq_some h1
  have hpk : ¬(m.piece.pieceType = .king ∧ m.piece.isWhite = c) :=
    findKing_none_squares hk hvF hsqF
  unfold Board.findKing
  rw [List.find?_eq_none]
  intro p hp
  have hcell : (b.simulateMove m).squares p = none ∨
      (b.simulateMove m).squares p = some { m.piece with position := m.toPos } ∨
      (b.simulateMove m).squares p = b.squares p := by
    by_cases hep : m.isEnPassant = true
    · by_cases hqE : p = epPosOf m
      · subst hqE
        refine Or.inl ?_
        simp [Board.simulateMove, hep, setCell]
      · by_cases hqT : p = m.toPos
        · subst hqT
          refine Or.inr (Or.inl ?_)
          simp [Board.simulateMove, hep, simStage1, setCell, hqE]
        · by_cases hqF : p = m.fromPos
          · subst hqF
            refine Or.inl ?_
            simp [Board.simulateMove, hep, simStage1, setCell, hqE, hqT]
          · refine Or.inr (Or.inr ?_)
            simp [Board.simulateMove, hep, simStage1, setCell, hqE, hqT, hqF]
    · have hepf : m.isEnPassant = false := by simpa using hep
      by_cases hqT : p = m.toPos
      · subst hqT
        refine Or.inr (Or.inl ?_)
        simp [Board.simulateMove, hepf, simStage1, setCell]
      · by_cases hqF : p = m.fromPos
        · subst hqF
          refine Or.inl ?_
          simp [Board.simulateMove, hepf, simStage1, setCell, hqT]
        · refine Or.inr (Or.inr ?_)
          simp [Board.simulateMove, hepf, simStage1, setCell, hqT, hqF]
  rcases hcell with h | h | h
  · rw [h]
    simp
  · rw [h]
    simpa using hpk
  · rw [h]
    cases hsq : b.squares p with
    | none => simp
    | some pc =>
        have := findKing_none_squares hk (mem_scanPositions.mp hp) hsq
        simpa using this

lemma slideNative_fields (b : Board) (piece : Piece) (origin : Pos) (dx dy : Int) :
    ∀ (ds : List Int) (m : Move), m ∈ slideNative b piece origin dx dy ds →
      m.piece = piece ∧ m.fromPos = origin := by
  intro ds
  induction ds with
  | nil =>
      intro m hm
      cases hm
  | cons d rest ih =>
      intro m hm
      rw [slideNative] at hm
      by_cases hv : (origin.offset (dx * d) (dy * d)).isValid = false
      · rw [if_pos hv] at hm
        cases hm
      · rw [if_neg hv] at hm
        cases hq : b.getPieceAt (origin.offset (dx * d) (dy * d)) with
        | some q =>
            simp only [hq] at hm
            by_cases hw : q.isWhite = piece.isWhite
            · rw [if_pos hw] at hm
              cases hm
            · rw [if_neg hw] at hm
              rw [List.mem_singleton.mp hm]
              exact ⟨rfl, rfl⟩
        | none =>
            simp only [hq] at hm
            rcases List.mem_cons.mp hm with h | h
            · rw [h]
              exact ⟨rfl, rfl⟩
            · exact ih m h

lemma stepNative_fields (b : Board) (piece : Piece) (origin : Pos) (dx dy : Int) (m : Move)
    (hm : m ∈ stepNative b piece origin dx dy) : m.piece = piece ∧ m.fromPos = origin := by
  unfold stepNative at hm
  by_cases hv : (origin.offset dx dy).isValid = false
  · rw [if_pos hv] at hm
    cases hm
  · rw [if_neg hv] at hm
    cases hq : b.getPieceAt (origin.offset dx dy) with
    | some q =>
        simp only [hq] at hm
        by_cases hw : q.isWhite = piece.isWhite
        · rw [if_pos hw] at hm
          cases hm
        · rw [if_neg hw] at hm
          rw [List.mem_singleton.mp hm]
          exact ⟨rfl, rfl⟩
    | none =>
        simp only [hq] at hm
        rw [List.mem_singleton.mp hm]
        exact ⟨rfl, rfl⟩

lemma genericNativeMoves_fields (b : Board) (piece : Piece) (origin : Pos) (m : Move)
    (hm : m ∈ genericNativeMoves b piece origin) : m.piece = piece ∧ m.fromPos = origin := by
  have h := mem_foldl_step (fun mv => mv.piece = piece ∧ mv.fromPos = origin) _ ?_
    piece.getNativeMovementVectors [] m hm
  · rcases h with h | h
    · cases h
    · exact h
  · intro acc v mv hmv
    rcases List.mem_append.mp hmv with h | h
    · exact Or.inl h
    · by_cases hsl : v.2.2 = true
      · rw [if_pos hsl] at h
        exact Or.inr (slideNative_fields b piece origin v.1 v.2.1 rayDistances mv h)
      · rw [if_neg hsl] at h
        exact Or.inr (stepNative_fields b piece origin v.1 v.2.1 mv h)

lemma promoMoves_fields (origin target : Pos) (pawn : Piece) (captured : Option Piece)
    (m : Move) (hm : m ∈ promoMoves origin target pawn captured) :
    m.piece = pawn ∧ m.fromPos = origin := by
  unfold promoMoves at hm
  rw [List.mem_map] at hm
  obtain ⟨pt, -, rfl⟩ := hm
  exact ⟨rfl, rfl⟩

lemma pawnCapList_fields (b : Board) (pawn : Piece) (origin : Pos) (acc : List Move)
    (dx : Int) (m : Move) (hm : m ∈ pawnCapList b pawn origin acc dx) :
    m ∈ acc ∨ (m.piece = pawn ∧ m.fromPos = origin) := by
  unfold pawnCapList at hm
  cases hq : b.getPieceAt (origin.offset dx (if pawn.isWhite then 1 else -1)) with
  | some t =>
      simp only [hq] at hm
      by_cases hw : t.isWhite ≠ pawn.isWhite
      · rw [if_pos hw] at hm
        by_cases hpr : (origin.offset dx (if pawn.isWhite then 1 else -1)).isPromotionRank
            pawn.isWhite = true
        · rw [if_pos hpr] at hm
          rcases List.mem_append.mp hm with h | h
          · exact Or.inl h
          · exact Or.inr (promoMoves_fields origin _ pawn (some t) m h)
        · rw [if_neg hpr] at hm
          rcases List.mem_append.mp hm with h | h
          · exact Or.inl h
          · rw [List.mem_singleton.mp h]
            exact Or.inr ⟨rfl, rfl⟩
      · rw [if_neg hw] at hm
        exact Or.inl hm
  | none =>
      simp only [hq] at hm
      exact Or.inl hm

lemma pawnCapStep_fields (b : Board) (pawn : Piece) (origin : Pos) (acc : List Move)
    (dx : Int) (m : Move) (hm : m ∈ pawnCapStep b pawn origin acc dx) :
    m ∈ acc ∨ (m.piece = pawn ∧ m.fromPos = origin) := by
  unfold pawnCapStep at hm
  by_cases hv : (origin.offset dx (if pawn.isWhite then 1 else -1)).isValid = false
  · rw [if_pos hv] at hm
    exact Or.inl hm
  · rw [if_neg hv] at hm
    cases hept : b.enPassantTarget with
    | some ept =>
        simp only [hept] at hm
        by_cases heq : origin.offset dx (if pawn.isWhite then 1 else -1) = ept
        · rw [if_pos heq] at hm
          cases hep : b.getPieceAt (origin.offset dx 0) with
          | some epPawn =>
              simp only [hep] at hm
              by_cases hpt : epPawn.pieceType = .pawn
              · rw [if_pos hpt] at hm
                rcases List.mem_append.mp hm with h | h
                · exact pawnCapList_fields b pawn origin acc dx m h
                · rw [List.mem_singleton.mp h]
                  exact Or.inr ⟨rfl, rfl⟩
              · rw [if_neg hpt] at hm
                exact pawnCapList_fields b pawn origin acc dx m hm
          | none =>
              simp only [hep] at hm
              exact pawnCapList_fields b pawn origin acc dx m hm
        · rw [if_neg heq] at hm
          exact pawnCapList_fields b pawn origin acc dx m hm
    | none =>
        simp only [hept] at hm
        exact pawnCapList_fields b pawn origin acc dx m hm

lemma pawnFwdMoves_fields (b : Board) (pawn : Piece) (origin : Pos) (m : Move)
    (hm : m ∈ pawnFwdMoves b pawn origin) : m.piece = pawn ∧ m.fromPos = origin := by
  unfold pawnFwdMoves at hm
  by_cases hv : ((origin.offset 0 (if pawn.isWhite then 1 else -1)).isValid &&
      (b.getPieceAt (origin.offset 0 (if pawn.isWhite then 1 else -1))).isNone) = true
  · rw [if_pos hv] at hm
    by_cases hpr : (origin.offset 0 (if pawn.isWhite then 1 else -1)).isPromotionRank
        pawn.isWhite = true
    · rw [if_pos hpr] at hm
      exact promoMoves_fields origin _ pawn none m hm
    · rw [if_neg hpr] at hm
      rcases List.mem_cons.mp hm with h | h
      · rw [h]
        exact ⟨rfl, rfl⟩
      · by_cases hsr : origin.y = (if pawn.isWhite then (1 : Int) else 6)
        · rw [if_pos hsr] at h
          by_cases h2 : (b.getPieceAt
              (origin.offset 0 ((if pawn.isWhite then (1 : Int) else -1) * 2))).isNone = true
          · rw [if_pos h2] at h
            rw [List.mem_singleton.mp h]
            exact ⟨rfl, rfl⟩
          · rw [if_neg h2] at h
            cases h
        · rw [if_neg hsr] at h
          cases h
  · rw [if_neg hv] at hm
    cases hm

lemma generatePawnMoves_fields (b : Board) (pawn : Piece) (origin : Pos) (m : Move)
    (hm : m ∈ b.generatePawnMoves pawn (some origin)) :
    m.piece = pawn ∧ m.fromPos = origin := by
  rw [show b.generatePawnMoves pawn (some origin) =
      pawnFwdMoves b pawn origin ++
        pawnCapStep b pawn origin (pawnCapStep b pawn origin [] (-1)) 1 from rfl] at hm
  rcases List.mem_append.mp hm with h | h
  · exact pawnFwdMoves_fields b pawn origin m h
  · rcases pawnCapStep_fields b pawn origin _ 1 m h with h2 | h2
    · rcases pawnCapStep_fields b pawn origin [] (-1) m h2 with h3 | h3
      · cases h3
      · exact h3
    · exact h2

lemma generateKingMoves_fields (b : Board) (king : Piece) (origin : Pos) (m : Move)
    (hm : m ∈ b.generateKingMoves king (some origin)) :
    m.piece = king ∧ m.fromPos = origin := by
  unfold Board.generateKingMoves at hm
  simp only [Board.resolvePos] at hm
  rcases List.mem_append.mp hm with hmk | hqs
  · rcases List.mem_append.mp hmk with hmm | hks
    · obtain ⟨-, h1, h2⟩ := kingNormal_mem b king origin m hmm
      exact ⟨h1, h2⟩
    · by_cases hA : king.hasMoved = false ∧
          (if king.isWhite then b.whiteCanCastleKingside else b.blackCanCastleKingside) = true
      · rw [if_pos hA] at hks
        cases hrk : b.getPieceAt ⟨7, origin.y⟩ with
        | some rk =>
            simp only [hrk] at hks
            by_cases hB : rk.pieceType = .rook ∧ rk.hasMoved = false ∧
                (b.getPieceAt (origin.offset 1 0)).isNone = true ∧
                (b.getPieceAt (origin.offset 2 0)).isNone = true ∧
                b.isUnderAnyAttack origin (!king.isWhite) = false ∧
                b.isUnderAnyAttack (origin.offset 1 0) (!king.isWhite) = false ∧
                b.isUnderAnyAttack (origin.offset 2 0) (!king.isWhite) = false
            · rw [if_pos hB] at hks
              rw [List.mem_singleton.mp hks]
              exact ⟨rfl, rfl⟩
            · rw [if_neg hB] at hks
              cases hks
        | none =>
            simp only [hrk] at hks
            cases hks
      · rw [if_neg hA] at hks
        cases hks
  · by_cases hA : king.hasMoved = false ∧
        (if king.isWhite then b.whiteCanCastleQueenside else b.blackCanCastleQueenside) = true
    · rw [if_pos hA] at hqs
      cases hrk : b.getPieceAt ⟨0, origin.y⟩ with
      | some rk =>
          simp only [hrk] at hqs
          by_cases hB : rk.pieceType = .rook ∧ rk.hasMoved = false ∧
              (b.getPieceAt (origin.offset (-1) 0)).isNone = true ∧
              (b.getPieceAt (origin.offset (-2) 0)).isNone = true ∧
              (b.getPieceAt (origin.offset (-3) 0)).isNone = true ∧
              b.isUnderAnyAttack origin (!king.isWhite) = false ∧
              b.isUnderAnyAttack (origin.offset (-1) 0) (!king.isWhite) = false ∧
              b.isUnderAnyAttack (origin.offset (-2) 0) (!king.isWhite) = false
          · rw [if_pos hB] at hqs
            rw [List.mem_singleton.mp hqs]
            exact ⟨rfl, rfl⟩
          · rw [if_neg hB] at hqs
            cases hqs
      | none =>
          simp only [hrk] at hqs
          cases hqs
    · rw [if_neg hA] at hqs
      cases hqs

lemma generateNativeMoves_fields (b : Board) (piece : Piece) (pbp : Pos) (m : Move)
    (hm : m ∈ b.generateNativeMoves piece (some pbp)) :
    m.piece = piece ∧ m.fromPos = pbp := by
  unfold Board.generateNativeMoves at hm
  simp only [Board.resolvePos] at hm
  by_cases hp : piece.pieceType = .pawn
  · rw [if_pos hp] at hm
    exact generatePawnMoves_fields b piece pbp m hm
  · rw [if_neg hp] at hm
    by_cases hk : piece.pieceType = .king
    · rw [if_pos hk] at hm
      exact generateKingMoves_fields b piece pbp m hm
    · rw [if_neg hk] at hm
      exact genericNativeMoves_fields b piece pbp m hm

lemma calculateTransporterVector_fields (b : Board) (piece : Piece)
    (mates : List (Piece × Pos)) (pbp : Pos) (m : Move)
    (hm : m ∈ b.calculateTransporterVector piece mates (some pbp)) :
    m.piece = piece ∧ m.fromPos = pbp := by
  unfold Board.calculateTransporterVector at hm
  by_cases hq : b.gameMode.isQuantum = true
  · rw [if_pos hq] at hm
    obtain ⟨pr, -, v, -, t, -, hmv⟩ := calcQuantum_provenance b piece mates pbp m hm
    rw [hmv]
    exact ⟨rfl, rfl⟩
  · rw [if_neg hq] at hm
    obtain ⟨pr, -, v, -, t, -, hmv⟩ := calcLinear_provenance b piece mates pbp m hm
    rw [hmv]
    exact ⟨rfl, rfl⟩

/-- C9 (implicit): when the side being validated has no king on the
grid, `is_in_check` is `False`, the king-safety filter rejects no move of
that side, and the legal-move list for any of its pieces equals the
unfiltered pseudo-legal list. -/
theorem C9_no_king_all_moves_legal (b : Board) (c : Bool) (h : b.findKing c = none) :
    (b.whiteToMove = c → b.isInCheck = false) ∧
      (∀ m : Move, b.getPieceAt m.fromPos = some m.piece → m.piece.isWhite = c →
        b.leavesKingInCheck m = false) ∧
      (∀ (piece : Piece) (pbp : Pos), b.getPieceAt pbp = some piece → piece.isWhite = c →
        b.generateLegalMovesForPiece piece false (some pbp) =
          b.generateLegalMovesForPiece piece true (some pbp)) := by
  have hleaves : ∀ m : Move, b.getPieceAt m.fromPos = some m.piece → m.piece.isWhite = c →
      b.leavesKingInCheck m = false := by
    intro m h1 hcol
    unfold Board.leavesKingInCheck Board.legalitySimDanger
    have hk : (b.simulateMove m).findKing m.piece.isWhite = none := by
      rw [hcol]
      exact findKing_simulate_none hcol h1 h
    rw [hk]
  refine ⟨?_, hleaves, ?_⟩
  · intro hwt
    unfold Board.isInCheck
    rw [hwt, h]
  · intro piece pbp hpp hcol
    unfold Board.generateLegalMovesForPiece
    simp only [Board.resolvePos]
    simp only [Bool.false_eq_true, if_false, if_true]
    rw [List.filter_eq_self]
    intro m hm
    have hfields : m.piece = piece ∧ m.fromPos = pbp := by
      rcases List.mem_append.mp hm with h2 | h2
      · exact generateNativeMoves_fields b piece pbp m h2
      · exact calculateTransporterVector_fields b piece _ pbp m h2
    have h1 : b.getPieceAt m.fromPos = some m.piece := by
      rw [hfields.2, hfields.1]
      exact hpp
    have hcol2 : m.piece.isWhite = c := by
      rw [hfields.1, hcol]
    rw [hleaves m h1 hcol2]
    rfl

/-- Witness for C9: on the board with no White king (White Pawn a2,
Black King e8), White is not in check and the pawn push a2-a3 passes the
filter; the pawn's legal list equals its unfiltered list. -/
theorem C9_no_king_all_moves_legal_witness :
    board9.isInCheck = false ∧ board9.leavesKingInCheck m9 = false ∧
      board9.generateLegalMovesForPiece wp9 false (some ⟨0, 1⟩) =
        board9.generateLegalMovesForPiece wp9 true (some ⟨0, 1⟩) :=
  ⟨(C9_no_king_all_moves_legal board9 true (by decide)).1 (by decide),
    (C9_no_king_all_moves_legal board9 true (by decide)).2.1 m9 (by decide) (by decide),
    (C9_no_king_all_moves_legal board9 true (by decide)).2.2 wp9 ⟨0, 1⟩ (by decide) (by decide)⟩

lemma executeMove_success (e : TetherChessEngine) (mv : Move) :
    (e.executeMove mv).1.success = true := rfl

/-- C7: whenever `make_move` or `make_move_from_notation` returns a
failure result — terminal game state, empty origin, wrong side to move,
no matching legal move or promotion choice, or unparseable text — the
returned engine (board grid, side to move, castling rights, en-passant
target, history, game state and log) is exactly the engine before the
call. -/
theorem C7_failure_leaves_engine_unchanged (e : TetherChessEngine) :
    (∀ (fromPos toPos : Pos) (promo : Option PieceType),
      (e.makeMove fromPos toPos promo).1.success = false →
      (e.makeMove fromPos toPos promo).2 = e) ∧
      (∀ s : String, (e.makeMoveFromText s).1.success = false →
        (e.makeMoveFromText s).2 = e) := by
  constructor
  · intro fromPos toPos promo hfail
    unfold TetherChessEngine.makeMove at hfail ⊢
    by_cases hg : e.gameState ≠ GameState.ONGOING
    · rw [if_pos hg]
    · rw [if_neg hg] at hfail ⊢
      cases hp : e.board.getPieceAt fromPos with
      | none =>
          simp only [hp]
      | some piece =>
          simp only [hp] at hfail ⊢
          by_cases ht : piece.isWhite ≠ e.board.whiteToMove
          · rw [if_pos ht]
          · rw [if_neg ht] at hfail ⊢
            split at hfail
            next heq =>
              rfl
            next mv heq =>
              rw [executeMove_success] at hfail
              cases hfail
  · intro s hfail
    unfold TetherChessEngine.makeMoveFromText at hfail ⊢
    by_cases hg : e.gameState ≠ GameState.ONGOING
    · rw [if_pos hg]
    · rw [if_neg hg] at hfail ⊢
      cases hp : e.parseMoveText s with
      | none =>
          simp only [hp]
      | some mv =>
          simp only [hp] at hfail
          rw [executeMove_success] at hfail
          cases hfail

/-- Witness for C7: on an engine over the empty board, moving from an
empty square fails and leaves the engine identical. -/
theorem C7_failure_leaves_engine_unchanged_witness :
    (e7.makeMove ⟨0, 0⟩ ⟨0, 1⟩ none).1.success = false ∧
      (e7.makeMove ⟨0, 0⟩ ⟨0, 1⟩ none).2 = e7 :=
  ⟨by decide,
    (C7_failure_leaves_engine_unchanged e7).1 ⟨0, 0⟩ ⟨0, 1⟩ none (by decide)⟩

lemma findMove_some {e : TetherChessEngine} {fp tp : Pos} {m : Move}
    (h : e.findMove fp tp = some m) :
    ∃ piece, e.board.getPieceAt fp = some piece ∧
      m ∈ e.board.generateLegalMovesForPiece piece false none ∧ m.toPos = tp := by
  unfold TetherChessEngine.findMove at h
  cases hp : e.board.getPieceAt fp with
  | none =>
      rw [hp] at h
      cases h
  | some piece =>
      rw [hp] at h
      refine ⟨piece, rfl, List.mem_of_find?_eq_some h, ?_⟩
      have := List.find?_some h
      simpa using this

lemma parseCoordMove_some {e : TetherChessEngine} {t : List Char} {m : Move}
    (h : e.parseCoordMove t = some m) :
    4 ≤ (pyRemoveChar 'x' (pyRemoveChar '-' t)).length ∧
      ∃ fp tp, posFromAlgebraic ((pyRemoveChar 'x' (pyRemoveChar '-' t)).take 2) = some fp ∧
        posFromAlgebraic (((pyRemoveChar 'x' (pyRemoveChar '-' t)).drop 2).take 2) = some tp ∧
        e.findMove fp tp = some m := by
  unfold TetherChessEngine.parseCoordMove at h
  by_cases hl : 4 ≤ (pyRemoveChar 'x' (pyRemoveChar '-' t)).length
  · rw [if_pos hl] at h
    cases hfp : posFromAlgebraic ((pyRemoveChar 'x' (pyRemoveChar '-' t)).take 2) with
    | none =>
        simp only [hfp] at h
        cases h
    | some fp =>
        cases htp : posFromAlgebraic (((pyRemoveChar 'x' (pyRemoveChar '-' t)).drop 2).take 2) with
        | none =>
            simp only [hfp, htp] at h
            cases h
        | some tp =>
            simp only [hfp, htp] at h
            exact ⟨hl, fp, tp, rfl, rfl, h⟩
  · rw [if_neg hl] at h
    cases h

/-- C8 (counterexample): `make_move_from_notation` succeeds on the
malformed input "e2e4zz" — four coordinates followed by stray trailing
characters — on an engine where e2-e4 is legal, instead of failing. -/
theorem C8_malformed_input_succeeds :
    (e8.makeMoveFromText "e2e4zz").1.success = true := by
  decide

/-- C8 (amended): a parsed move arises only from a castling string (with
a king present) or from text whose cleanup — strip whitespace, delete
every '-' and 'x' — leaves at least four characters whose first four
form two valid board squares naming a generated legal move of the piece
on the first square; characters beyond the first four are ignored, not
rejected, so text with stray separators or trailing characters can
succeed. -/
theorem C8_parse_accepted_forms (e : TetherChessEngine) (s : String) (m : Move)
    (h : e.parseMoveText s = some m) :
    ((pyStrip s.toList = "O-O".toList ∨ pyStrip s.toList = "0-0".toList) ∧
      ∃ kp, e.board.findKing e.board.whiteToMove = some kp ∧
        e.findMove kp (kp.offset 2 0) = some m) ∨
    ((pyStrip s.toList = "O-O-O".toList ∨ pyStrip s.toList = "0-0-0".toList) ∧
      ∃ kp, e.board.findKing e.board.whiteToMove = some kp ∧
        e.findMove kp (kp.offset (-2) 0) = some m) ∨
    (4 ≤ (pyRemoveChar 'x' (pyRemoveChar '-' (pyStrip s.toList))).length ∧
      ∃ fp tp,
        posFromAlgebraic
            ((pyRemoveChar 'x' (pyRemoveChar '-' (pyStrip s.toList))).take 2) = some fp ∧
        posFromAlgebraic
            (((pyRemoveChar 'x' (pyRemoveChar '-' (pyStrip s.toList))).drop 2).take 2) =
          some tp ∧
        e.findMove fp tp = some m ∧
        ∃ piece, e.board.getPieceAt fp = some piece ∧
          m ∈ e.board.generateLegalMovesForPiece piece false none ∧ m.toPos = tp) := by
  unfold TetherChessEngine.parseMoveText at h
  by_cases h1 : pyStrip s.toList = "O-O".toList ∨ pyStrip s.toList = "0-0".toList
  · rw [if_pos h1] at h
    cases hk : e.board.findKing e.board.whiteToMove with
    | some kp =>
        rw [hk] at h
        exact Or.inl ⟨h1, kp, rfl, h⟩
    | none =>
        rw [hk] at h
        obtain ⟨hl, fp, tp, hfp, htp, hfm⟩ := parseCoordMove_some h
        exact Or.inr (Or.inr ⟨hl, fp, tp, hfp, htp, hfm, findMove_some hfm⟩)
  · rw [if_neg h1] at h
    by_cases h2 : pyStrip s.toList = "O-O-O".toList ∨ pyStrip s.toList = "0-0-0".toList
    · rw [if_pos h2] at h
      cases hk : e.board.findKing e.board.whiteToMove with
      | some kp =>
          rw [hk] at h
          exact Or.inr (Or.inl ⟨h2, kp, rfl, h⟩)
      | none =>
          rw [hk] at h
          obtain ⟨hl, fp, tp, hfp, htp, hfm⟩ := parseCoordMove_some h
          exact Or.inr (Or.inr ⟨hl, fp, tp, hfp, htp, hfm, findMove_some hfm⟩)
    · rw [if_neg h2] at h
      obtain ⟨hl, fp, tp, hfp, htp, hfm⟩ := parseCoordMove_some h
      exact Or.inr (Or.inr ⟨hl, fp, tp, hfp, htp, hfm, findMove_some hfm⟩)

/-- Witness for C8: parsing "e2xxe4" (a stray extra 'x') on `e8` yields
the legal double push e2-e4, landing in the coordinate-pair branch of
the amended characterization. -/
theorem C8_parse_accepted_forms_witness :
    ((pyStrip "e2xxe4".toList = "O-O".toList ∨ pyStrip "e2xxe4".toList = "0-0".toList) ∧
      ∃ kp, e8.board.findKing e8.board.whiteToMove = some kp ∧
        e8.findMove kp (kp.offset 2 0) = some mv8) ∨
    ((pyStrip "e2xxe4".toList = "O-O-O".toList ∨ pyStrip "e2xxe4".toList = "0-0-0".toList) ∧
      ∃ kp, e8.board.findKing e8.board.whiteToMove = some kp ∧
        e8.findMove kp (kp.offset (-2) 0) = some mv8) ∨
    (4 ≤ (pyRemoveChar 'x' (pyRemoveChar '-' (pyStrip "e2xxe4".toList))).length ∧
      ∃ fp tp,
        posFromAlgebraic
            ((pyRemoveChar 'x' (pyRemoveChar '-' (pyStrip "e2xxe4".toList))).take 2) = some fp ∧
        posFromAlgebraic
            (((pyRemoveChar 'x' (pyRemoveChar '-' (pyStrip "e2xxe4".toList))).drop 2).take 2) =
          some tp ∧
        e8.findMove fp tp = some mv8 ∧
        ∃ piece, e8.board.getPieceAt fp = some piece ∧
          mv8 ∈ e8.board.generateLegalMovesForPiece piece false none ∧ mv8.toPos = tp) :=
  C8_parse_accepted_forms e8 "e2xxe4" mv8 (by decide)
